import Mathlib

/-!
socat: the readline address (`xio-readline.c`) and the logging subsystem (`error.c`)

A shallow embedding of

* `xioscan_readline`, the write-side scanner that maintains the dynamic prompt
  buffer `[dynprompt, dynend)`;
* `xioread_readline`, the read hook (echo-suppression path and line-editing path);
* `xioopen_readline`, the open function of the `readline` address;
* `msg` / `_msg`, the diagnostic output with exit on severity.

Bytes are natural numbers, C strings are lists of non-zero bytes, pointers into
the prompt buffer are integer offsets from `dynprompt`, and `size_t` arithmetic is
integer arithmetic reduced modulo `SIZE_MOD = 2^64`.  A memory operation that
leaves the object it works on has no defined result: the embedding returns
`none` there.  `xioscan_readline_flat` is the same function on the machine's memory,
where `memmove` and `memcpy` reach the bytes around the buffer: it says what the
code leaves in `dynend` and in `[dynprompt, dynend)` also where it leaves the
buffer.
-/

namespace Socat

/-! ## Machine model -/

/-- Number of values of `size_t` (2^64). -/
def SIZE_MOD : Int := 18446744073709551616

/-- Source: `#define READLINE_MAXPROMPT 512`. -/
def READLINE_MAXPROMPT : Nat := 512

/-- Carriage return. -/
def CR : Nat := 13

/-- Line feed. -/
def LF : Nat := 10

/-- The libc function `memrchr(buff, c, bytes)` with `bytes = buff.length`: the index of
the last occurrence of `c`, or `none` (NULL) when there is none. -/
def memrchr : List Nat → Nat → Option Nat
  | [], _ => none
  | b :: rest, c =>
    match memrchr rest c with
    | some i => some (i + 1)
    | none => if b = c then some 0 else none

/-- Overwrite `buf` from offset `off` with `data` (the caller has checked the bounds). -/
def writeAt (buf : List Nat) (off : Nat) (data : List Nat) : List Nat :=
  buf.take off ++ data ++ buf.drop (off + data.length)

/-- The libc function `memmove(buf+dst, buf+src, n)` inside one object `buf`;
`none` when source or destination range leaves the object. -/
def memmove (buf : List Nat) (dst src n : Int) : Option (List Nat) :=
  if 0 ≤ dst ∧ 0 ≤ src ∧ 0 ≤ n ∧ dst + n ≤ buf.length ∧ src + n ≤ buf.length then
    some (writeAt buf dst.toNat ((buf.drop src.toNat).take n.toNat))
  else none

/-- The libc function `memcpy(buf+dst, from+src, n)` between two objects;
`none` when source or destination range leaves its object. -/
def memcpy (buf : List Nat) (dst : Int) (from_ : List Nat) (src n : Int) :
    Option (List Nat) :=
  if 0 ≤ dst ∧ 0 ≤ src ∧ 0 ≤ n ∧ dst + n ≤ buf.length ∧ src + n ≤ from_.length then
    some (writeAt buf dst.toNat ((from_.drop src.toNat).take n.toNat))
  else none

/-! ## Data model -/

/-- The data types of a stream that matter here (`pipe->dtype`). -/
inductive DataType where
  | XIODATA_STREAM
  | XIODATA_READLINE
  deriving DecidableEq, Repr

/-- The terminal attributes the readline address touches: the `ICANON` and `ECHO`
bits of `c_lflag`, and the rest of `struct termios`. -/
structure Termios where
  icanon : Bool
  echo : Bool
  rest : Nat
  deriving DecidableEq, Repr

/-- The parameter block `para.readline` of `struct single`.  `dynprompt` is the
allocated buffer (`none` is NULL), `dynend` is the offset of the pointer `dynend`
from `dynprompt`; a compiled `regex_t` is its matching predicate on C strings. -/
structure Readline where
  history_file : Option (List Nat)
  prompt : Option (List Nat)
  dynbytes : Nat
  dynprompt : Option (List Nat)
  dynend : Int
  hasnoecho : Bool
  noecho : List Nat → Bool

/-- The values of `howtoclose` that matter here. -/
inductive HowToClose where
  | XIOCLOSE_UNSPEC
  | XIOCLOSE_READLINE
  deriving DecidableEq, Repr

/-- The values of `fdtype` that matter here. -/
inductive FdType where
  | FDTYPE_UNSPEC
  | FDTYPE_SINGLE
  deriving DecidableEq, Repr

/-- The fields of `struct single` used by the readline address. -/
structure Single where
  fd1 : Int
  dtype : DataType
  howtoclose : HowToClose
  fdtype : FdType
  ttyvalid : Bool
  savetty : Termios
  para : Readline

/-! ## `xioscan_readline` -/

/-- The first part of `xioscan_readline` (lines 214-232): the value of `dynend` (as
an offset from `dynprompt`) after the two "forget old prompt" resets, and the
offset `ptr` into `buff` where the new prompt starts. -/
def scanStart (pipe : Single) (buff : List Nat) : Int × Int :=
  let bytes : Int := buff.length
  let dynbytes : Int := pipe.para.dynbytes
  let pcr := memrchr buff CR
  let plf := memrchr buff LF
  -- if (bytes > dynbytes) ptr = buff + bytes - dynbytes
  let ptr1 : Int := if bytes > dynbytes then bytes - dynbytes else 0
  -- if (pcr) { dynend = dynprompt; ptr = pcr+1; }
  let st1 : Int × Int :=
    match pcr with
    | some i => (0, (i : Int) + 1)
    | none => (pipe.para.dynend, ptr1)
  -- if (plf && plf >= ptr) { dynend = dynprompt; ptr = plf+1; }
  match plf with
  | some j => if (j : Int) ≥ st1.2 then (0, (j : Int) + 1) else st1
  | none => st1

/-- Line 233: `len = buff - ptr + bytes`, computed in `size_t`. -/
def scanLen (pipe : Single) (buff : List Nat) : Int :=
  (0 - (scanStart pipe buff).2 + (buff.length : Int)) % SIZE_MOD

/-- Line 234: the condition of the trimming branch,
`dynend - dynprompt + len > dynbytes`, computed in `size_t`. -/
def scanTrims (pipe : Single) (buff : List Nat) : Bool :=
  decide (((scanStart pipe buff).1 + scanLen pipe buff) % SIZE_MOD > (pipe.para.dynbytes : Int))

/-- Lines 236-239: the byte count `dynbytes - len` of the `memmove`, computed in
`size_t`. -/
def scanMoveCount (pipe : Single) (buff : List Nat) : Int :=
  ((pipe.para.dynbytes : Int) - scanLen pipe buff) % SIZE_MOD

/-- Source: `xioscan_readline` (xio-readline.c, lines 211-248), with
`bytes = buff.length`. -/
def xioscan_readline (pipe : Single) (buff : List Nat) : Option Single :=
  match pipe.para.dynprompt with
  | none => some pipe
  | some buf =>
    if pipe.dtype ≠ DataType.XIODATA_READLINE then some pipe else
    let dynend2 := (scanStart pipe buff).1
    let ptr := (scanStart pipe buff).2
    let len := scanLen pipe buff
    if scanTrims pipe buff then
      -- memmove(dynprompt, dynend - (dynbytes - len), dynbytes - len)
      let n := scanMoveCount pipe buff
      match memmove buf 0 (dynend2 - n) n with
      | none => none
      | some buf1 =>
        -- dynend = dynprompt + dynbytes - len
        let dynend3 : Int := (pipe.para.dynbytes : Int) - len
        -- memcpy(dynend, ptr, len); dynend = dynend + len
        match memcpy buf1 dynend3 buff ptr len with
        | none => none
        | some buf2 =>
          some { pipe with
            para := { pipe.para with dynprompt := some buf2, dynend := dynend3 + len } }
    else
      match memcpy buf dynend2 buff ptr len with
      | none => none
      | some buf2 =>
        some { pipe with
          para := { pipe.para with dynprompt := some buf2, dynend := dynend2 + len } }

/-- The tracked prompt: the bytes in `[dynprompt, dynend)`. -/
def retained (pipe : Single) : List Nat :=
  match pipe.para.dynprompt with
  | none => []
  | some buf => buf.take pipe.para.dynend.toNat

/-- Run `xioscan_readline` over a sequence of writes; `none` as soon as one call
has no defined result. -/
def scanAll (pipe : Single) : List (List Nat) → Option Single
  | [] => some pipe
  | w :: ws =>
    match xioscan_readline pipe w with
    | none => none
    | some pipe1 => scanAll pipe1 ws

/-- The memory `Malloc(n)` returns: `n` bytes of arbitrary contents, `junk i` at
offset `i`. -/
def Malloc (junk : Nat → Nat) (n : Nat) : List Nat := (List.range n).map junk

/-- The parameter block of a readline endpoint right after lines 101-107 of
`xioopen_readline` allocated the dynamic prompt buffer:
`dynbytes = READLINE_MAXPROMPT`, a buffer of `dynbytes+1` bytes of arbitrary
contents, and `dynend = dynprompt`. -/
def freshPara (junk : Nat → Nat) : Readline :=
  { history_file := none, prompt := none, dynbytes := READLINE_MAXPROMPT,
    dynprompt := some (Malloc junk (READLINE_MAXPROMPT + 1)),
    dynend := 0, hasnoecho := false, noecho := fun _ => false }

/-- A readline endpoint in its freshly opened state. -/
def freshPipe (junk : Nat → Nat) : Single :=
  { fd1 := 0, dtype := DataType.XIODATA_READLINE,
    howtoclose := HowToClose.XIOCLOSE_READLINE, fdtype := FdType.FDTYPE_SINGLE,
    ttyvalid := false, savetty := ⟨false, false, 0⟩, para := freshPara junk }

/-! ## `xioread_readline` -/

/-- The diagnostics (`Error`, `Warn`, `Notice` calls) of xio-readline.c.  Whether an
`Error` ends the process is decided by `msg` and the diagnostic options; the
functions below record the call and go on as the C code does when `msg` returns. -/
inductive Diag where
  /-- Line 55: `Error1("%s: 0 parameters required", argv[0])`. -/
  | error_parameters
  /-- Line 60: `Error("address with data processing not allowed here")`. -/
  | error_data_processing
  /-- Line 75: `Notice(msgbuf)`. -/
  | notice_using (msgbuf : String)
  /-- Line 85: `Warn2("cannot query current terminal settings on fd %d. %s", ...)`. -/
  | warn_tcgetattr
  /-- Line 119: `Error3("regcomp(%p, \"%s\", REG_EXTENDED|REG_NOSUB): %s", ...)`. -/
  | error_regcomp (errcode : Nat)
  /-- Line 159: `Error4("read(%d, %p, "F_Zu"): %s", ...)`. -/
  | error_read (errno : Nat)
  /-- Line 182: `Warn2("write(%d, \"\\r\", 1): %s", ...)`. -/
  | warn_write (errno : Nat)
  /-- Line 185: `Warn1("write() only wrote "F_Zu" of 1 byte", writt)`. -/
  | warn_short_write (writt : Nat)
  deriving DecidableEq, Repr

/-- The result of one `Read` or `Write` system call. -/
inductive SysResult where
  /-- The call returned -1 with `errno == EINTR`. -/
  | eintr
  /-- The call returned -1 with another `errno`. -/
  | fail (errno : Nat)
  /-- The call succeeded; for `Read` with the bytes read, for `Write` with as many
  bytes as were written. -/
  | ok (data : List Nat)
  deriving DecidableEq, Repr

/-- The loop `do { r = call(); } while (r < 0 && errno == EINTR);` over the results
the successive calls give: the first result that is not an interrupt; `none` when
the calls never stop being interrupted. -/
def retryLoop : List SysResult → Option SysResult
  | [] => none
  | SysResult.eintr :: rest => retryLoop rest
  | r :: _ => some r

/-- What `xioread_readline` meets outside the endpoint: the terminal attributes of
`fd1`, the results of the `Read` calls and of the `Write` calls on `fd1`, and the
line `Readline` returns (`none` is NULL). -/
structure ReadEnv where
  tty : Termios
  reads : List SysResult
  writes : List SysResult
  line : Option (List Nat)

/-- What a call of `xioread_readline` leaves behind. `readlineArg` is the prompt
handed to `Readline` (`none`: `Readline` not called, `some none`: called with NULL);
`history` is the line given to `Add_history`. -/
structure ReadOut where
  ret : Int
  pipe : Single
  tty : Termios
  buff : List Nat
  noechoPath : Bool
  readlineArg : Option (Option (List Nat))
  history : Option (List Nat)
  log : List Diag

/-- The C string that starts at the beginning of `buf`: the bytes before the first
NUL; `none` when `buf` holds no NUL (the read runs off the object). -/
def cstring (buf : List Nat) : Option (List Nat) :=
  if 0 ∈ buf then some (buf.takeWhile (fun b => b ≠ 0)) else none

/-- The assignment `*(buf + off) = b`; `none` outside the object. -/
def store (buf : List Nat) (off : Int) (b : Nat) : Option (List Nat) :=
  if 0 ≤ off ∧ off < buf.length then some (buf.set off.toNat b) else none

/-- The libc function `strlen` on the characters of a string. -/
def strlen (s : List Nat) : Nat := (s.takeWhile (fun b => b ≠ 0)).length

/-- The libc function `strncpy(buff, line, n)`: the first `n` characters of the
string, padded with NUL up to `n` bytes; `none` when `n` bytes do not fit. -/
def strncpy (buff : List Nat) (line : List Nat) (n : Nat) : Option (List Nat) :=
  if n ≤ buff.length then
    some (writeAt buff 0
      ((line.takeWhile (fun b => b ≠ 0)).take n ++ List.replicate (n - strlen line) 0))
  else none

/-- The libc function `strcat(buff, "\n")`: the newline and a NUL go where the
string in `buff` ends; `none` when `buff` holds no NUL or the two bytes do not fit. -/
def strcat_newline (buff : List Nat) : Option (List Nat) :=
  if 0 ∈ buff ∧ strlen buff + 2 ≤ buff.length then
    some (writeAt buff (strlen buff) [LF, 0])
  else none

/-- The two bits of `c_lflag` (word 3 of the terminal flags) the readline address
sets and clears. -/
inductive LFlag where
  | ICANON
  | ECHO
  deriving DecidableEq, Repr

/-- Modelled from the spec: `xiotermios_setflag(fd, 3, mask)` of xio-termios.c, which
is not part of the sources at hand; section 6 has the terminal collaborator
"query/set terminal attributes (canonical mode, echo) on a descriptor", section 4.3
has the read path "re-enable local echo on the descriptor".  The bit is set in the
attributes of the terminal. -/
def xiotermios_setflag (t : Termios) : LFlag → Termios
  | LFlag.ICANON => { t with icanon := true }
  | LFlag.ECHO => { t with echo := true }

/-- Modelled from the spec: `xiotermios_clrflag(fd, 3, mask)` of xio-termios.c, which
is not part of the sources at hand; section 4.3 has "echo is disabled again".  The
bit is cleared in the attributes of the terminal. -/
def xiotermios_clrflag (t : Termios) : LFlag → Termios
  | LFlag.ICANON => { t with icanon := false }
  | LFlag.ECHO => { t with echo := false }

/-- Lines 142-145: the condition of the echo-suppression path,
`dynprompt && hasnoecho && !regexec(&noecho, dynprompt, 0, NULL, 0)`; `regexec`
reads the C string at `dynprompt`.  `none` when that read leaves the buffer. -/
def noechoCond (pipe : Single) : Option Bool :=
  match pipe.para.dynprompt with
  | none => some false
  | some buf =>
    if pipe.para.hasnoecho then
      match cstring buf with
      | none => none
      | some s => some (pipe.para.noecho s)
    else some false

/-- Lines 146-169: the echo-suppression path of `xioread_readline`. -/
def xioread_noecho (pipe : Single) (env : ReadEnv) (buf : List Nat) (buff : List Nat)
    (bufsiz : Nat) : Option ReadOut :=
  -- *pipe->para.readline.dynend = '\0';
  match store buf pipe.para.dynend 0 with
  | none => none
  | some buf1 =>
    -- Tcgetattr(pipe->fd1, &saveterm); setterm = saveterm; setterm.c_lflag |= ICANON;
    let saveterm := env.tty
    let setterm : Termios := { saveterm with icanon := true }
    -- Tcsetattr(pipe->fd1, TCSANOW, &setterm); do { bytes = Read(...) } while (...)
    match retryLoop env.reads with
    | none => none
    | some SysResult.eintr => none
    | some (SysResult.fail errno) =>
      -- Error4(...); errno = _errno; return -1;
      some { ret := -1,
             pipe := { pipe with para := { pipe.para with dynprompt := some buf1 } },
             tty := setterm, buff := buff, noechoPath := true, readlineArg := none,
             history := none, log := [Diag.error_read errno] }
    | some (SysResult.ok data) =>
      if (data.take bufsiz).length ≤ buff.length then
        -- Tcsetattr(pipe->fd1, TCSANOW, &saveterm); dynend = dynprompt; return bytes;
        some { ret := (data.take bufsiz).length,
               pipe := { pipe with
                 para := { pipe.para with dynprompt := some buf1, dynend := 0 } },
               tty := saveterm, buff := writeAt buff 0 (data.take bufsiz),
               noechoPath := true, readlineArg := none, history := none, log := [] }
      else none

/-- Lines 174-187: the carriage return written before `Readline` prints the prompt,
and the warning when that write fails or writes nothing. -/
def writeCR (pipe : Single) (env : ReadEnv) : Option (List Diag) :=
  if pipe.para.prompt.isSome ∨ pipe.para.dynprompt.isSome then
    match retryLoop env.writes with
    | none => none
    | some SysResult.eintr => none
    | some (SysResult.fail errno) => some [Diag.warn_write errno]
    | some (SysResult.ok data) =>
      if data.length < 1 then some [Diag.warn_short_write data.length] else some []
  else some []

/-- Lines 196-208: what `xioread_readline` does with the line `Readline` returned. -/
def xioread_finish (pipe : Single) (tty : Termios) (arg : Option (List Nat))
    (log : List Diag) (line : Option (List Nat)) (buff : List Nat) (bufsiz : Nat) :
    Option ReadOut :=
  match line with
  | none =>
    -- if (line == NULL) return 0;
    some { ret := 0, pipe := pipe, tty := tty, buff := buff, noechoPath := false,
           readlineArg := some arg, history := none, log := log }
  | some l =>
    -- xiotermios_clrflag(pipe->fd1, 3, ECHO); Add_history(line);
    -- bytes = strlen(line); strncpy(buff, line, bufsiz);
    let tty1 := xiotermios_clrflag tty LFlag.ECHO
    let bytes : Int := strlen l
    match strncpy buff l bufsiz with
    | none => none
    | some buff1 =>
      -- if ((size_t)bytes < bufsiz) { strcat(buff, "\n"); ++bytes; }
      if bytes < (bufsiz : Int) then
        match strcat_newline buff1 with
        | none => none
        | some buff2 =>
          some { ret := bytes + 1, pipe := pipe, tty := tty1, buff := buff2,
                 noechoPath := false, readlineArg := some arg, history := some l,
                 log := log }
      else
        some { ret := bytes, pipe := pipe, tty := tty1, buff := buff1,
               noechoPath := false, readlineArg := some arg, history := some l,
               log := log }

/-- Source: `xioread_readline` (xio-readline.c, lines 135-209).  `buff` is the
caller's memory, `bufsiz` the size the caller announces.  `none`: the call has no
defined result (a memory access leaves its object, or a system call is interrupted
for ever). -/
def xioread_readline (pipe : Single) (env : ReadEnv) (buff : List Nat) (bufsiz : Nat) :
    Option ReadOut :=
  match noechoCond pipe with
  | none => none
  | some true =>
    match pipe.para.dynprompt with
    | none => none
    | some buf => xioread_noecho pipe env buf buff bufsiz
  | some false =>
    -- xiotermios_setflag(pipe->fd1, 3, ECHO);
    let tty1 := xiotermios_setflag env.tty LFlag.ECHO
    match writeCR pipe env with
    | none => none
    | some log =>
      match pipe.para.dynprompt with
      | some buf =>
        -- *dynend = '\0'; line = Readline(dynprompt); dynend = dynprompt;
        match store buf pipe.para.dynend 0 with
        | none => none
        | some buf1 =>
          match cstring buf1 with
          | none => none
          | some s =>
            xioread_finish
              { pipe with para := { pipe.para with dynprompt := some buf1, dynend := 0 } }
              tty1 (some s) log env.line buff bufsiz
      | none =>
        -- line = Readline(pipe->para.readline.prompt);
        xioread_finish pipe tty1 pipe.para.prompt log env.line buff bufsiz

/-! ## `xioopen_readline` -/

/-- The options a readline address can be given: the four options of
xio-readline.c (lines 41-44) with their values, and options of other groups. -/
inductive Opt where
  | history_file (v : List Nat)
  | prompt (v : List Nat)
  | noprompt (v : Bool)
  | noecho (v : List Nat)
  | other (optcode : Nat)
  deriving DecidableEq, Repr

/-- The bits of the argument `xioflags` that `xioopen_readline` looks at:
`xioflags & XIO_ACCMODE` and `xioflags & XIO_MAYCONVERT`. -/
structure XioFlags where
  accmode : Nat
  mayconvert : Bool
  deriving DecidableEq, Repr

/-- The type `xiofile_t` as far as the readline address uses it: the bit
`XIO_DOESCONVERT` of `common.flags`, the other bits, and the stream. -/
structure XioFile where
  doesconvert : Bool
  otherflags : Nat
  stream : Single

/-- What `xioopen_readline` returns: `STAT_NORETRY`, -1, or what `_xio_openlate`
returned. -/
inductive OpenStatus where
  | STAT_NORETRY
  | minus_one
  | openlate (r : Int)
  deriving DecidableEq, Repr

/-- What `xioopen_readline` meets outside the endpoint: the terminal attributes of
fd 0, whether fd 0 is a terminal, whether `Tcgetattr` succeeds, whether
`applyopts_single` succeeds, what `regcomp` makes of a pattern, the contents of
allocated memory, and the return value of `_xio_openlate`. -/
structure OpenEnv where
  tty : Termios
  isatty : Bool
  tcgetattr_ok : Bool
  applyopts_single_ok : Bool
  regcomp : List Nat → Except Nat (List Nat → Bool)
  junk : Nat → Nat
  openlate : Int

/-- What a call of `xioopen_readline` leaves behind. -/
structure OpenOut where
  status : OpenStatus
  xfd : XioFile
  tty : Termios
  log : List Diag

/-- Modelled from the spec: `applyopts_offset` of xioopts.c, which is not part of the
sources at hand.  Section 4.2: delivery is "a direct write into a named field of the
behavior_state", and "options are applied in the order the request specifies them;
later application of the same `id` overwrites the earlier value".  The two options
of the readline address declared `OFUNC_OFFSET` (lines 41-42) are `history-file`
and `prompt`. -/
def applyopts_offset (para : Readline) : List Opt → Readline
  | [] => para
  | Opt.history_file v :: rest => applyopts_offset { para with history_file := some v } rest
  | Opt.prompt v :: rest => applyopts_offset { para with prompt := some v } rest
  | _ :: rest => applyopts_offset para rest

/-- Modelled from the spec: `retropt_bool(opts, OPT_NOPROMPT, &noprompt)` of
xioopts.c, which is not part of the sources at hand: the value of the `noprompt`
option of the request, in request order; `result` keeps its value when there is
none. -/
def retropt_bool_noprompt (result : Bool) : List Opt → Bool
  | [] => result
  | Opt.noprompt v :: _ => v
  | _ :: rest => retropt_bool_noprompt result rest

/-- Modelled from the spec: `retropt_string(opts, OPT_NOECHO, &noecho)` of xioopts.c,
which is not part of the sources at hand: the value of the `noecho` option of the
request, in request order; NULL when there is none. -/
def retropt_string_noecho : List Opt → Option (List Nat)
  | [] => none
  | Opt.noecho v :: _ => some v
  | _ :: rest => retropt_string_noecho rest

/-- Lines 65-74: the text of the notice. -/
def usingMessage (rw : Nat) : String :=
  "using " ++
  (if Nat.land (rw + 1) 1 ≠ 0 then
    "readline on stdin for reading" ++ (if Nat.land (rw + 1) 2 ≠ 0 then " and " else "")
   else "") ++
  (if Nat.land (rw + 1) 2 ≠ 0 then "stdio for writing" else "")

/-- Lines 100-107: the dynamic prompt buffer is allocated unless `noprompt` is set
or a static prompt is configured. -/
def allocDynprompt (para : Readline) (noprompt : Bool) (junk : Nat → Nat) : Readline :=
  if !noprompt && para.prompt.isNone then
    { para with dynbytes := READLINE_MAXPROMPT,
                dynprompt := some (Malloc junk (READLINE_MAXPROMPT + 1)),
                dynend := 0 }
  else para

/-- Source: `xioopen_readline` (xio-readline.c, lines 46-132).  The options of
other groups and phases are applied by `applyopts_single`, `applyopts`, `applyopts2`
and `_xio_openlate`, which are not part of the sources at hand: of these calls the
embedding keeps whether `applyopts_single` fails and what `_xio_openlate` returns;
`Using_history` and `Read_history` leave the endpoint alone. -/
def xioopen_readline (argc : Int) (opts : List Opt) (xioflags : XioFlags)
    (xfd : XioFile) (env : OpenEnv) : OpenOut :=
  if argc ≠ 1 then
    { status := OpenStatus.STAT_NORETRY, xfd := xfd, tty := env.tty,
      log := [Diag.error_parameters] }
  else if !xioflags.mayconvert then
    { status := OpenStatus.STAT_NORETRY, xfd := xfd, tty := env.tty,
      log := [Diag.error_data_processing] }
  else
    let log1 := [Diag.notice_using (usingMessage xioflags.accmode)]
    -- fd1 = 0; howtoclose = XIOCLOSE_READLINE; dtype = XIODATA_READLINE; ...
    let s1 : Single := { xfd.stream with
      fd1 := 0, howtoclose := HowToClose.XIOCLOSE_READLINE,
      dtype := DataType.XIODATA_READLINE, fdtype := FdType.FDTYPE_SINGLE }
    -- if (Isatty(fd1)) { if (Tcgetattr(fd1, &savetty) < 0) Warn2(...) else ttyvalid = true; }
    let s2 : Single :=
      if env.isatty && env.tcgetattr_ok then { s1 with savetty := env.tty, ttyvalid := true }
      else s1
    let log2 := if env.isatty && !env.tcgetattr_ok then log1 ++ [Diag.warn_tcgetattr] else log1
    -- if (applyopts_single(&xfd->stream, opts, PH_INIT) < 0)  return -1;
    if !env.applyopts_single_ok then
      { status := OpenStatus.minus_one,
        xfd := { xfd with doesconvert := true, stream := s2 }, tty := env.tty, log := log2 }
    else
      -- applyopts_offset(&xfd->stream, opts); retropt_bool(opts, OPT_NOPROMPT, &noprompt);
      let para1 := applyopts_offset s2.para opts
      let noprompt := retropt_bool_noprompt false opts
      let para2 := allocDynprompt para1 noprompt env.junk
      -- retropt_string(opts, OPT_NOECHO, &noecho); if (noecho) { regcomp ... }
      match retropt_string_noecho opts with
      | none =>
        -- xiotermios_clrflag(fd1, 3, ICANON); xiotermios_clrflag(fd1, 3, ECHO);
        { status := OpenStatus.openlate env.openlate,
          xfd := { xfd with doesconvert := true, stream := { s2 with para := para2 } },
          tty := xiotermios_clrflag (xiotermios_clrflag env.tty LFlag.ICANON) LFlag.ECHO,
          log := log2 }
      | some pattern =>
        match env.regcomp pattern with
        | Except.error errcode =>
          { status := OpenStatus.minus_one,
            xfd := { xfd with doesconvert := true, stream := { s2 with para := para2 } },
            tty := env.tty, log := log2 ++ [Diag.error_regcomp errcode] }
        | Except.ok re =>
          -- xfd->stream.para.readline.hasnoecho = true;
          let para3 : Readline := { para2 with noecho := re, hasnoecho := true }
          { status := OpenStatus.openlate env.openlate,
            xfd := { xfd with doesconvert := true, stream := { s2 with para := para3 } },
            tty := xiotermios_clrflag (xiotermios_clrflag env.tty LFlag.ICANON) LFlag.ECHO,
            log := log2 }

/-! ## The logging subsystem (`error.c`) -/

/-- Severity INFO, see `E_DEBUG`. -/
def E_INFO : Int := 1

/-- Severity WARNING, see `E_DEBUG`. -/
def E_WARN : Int := 3

/-- The last `n` elements of a list. -/
def lastN (n : Nat) (l : List Nat) : List Nat := l.drop (l.length - n)

/-- A pipe whose dynamic prompt buffer is in a consistent state: the readline data
type, an allocated buffer of `dynbytes+1` bytes, and `dynend` inside
`[dynprompt, dynprompt+dynbytes]`. -/
def WellFormed (pipe : Single) : Prop :=
  pipe.dtype = DataType.XIODATA_READLINE ∧
  ∃ buf, pipe.para.dynprompt = some buf ∧ buf.length = pipe.para.dynbytes + 1 ∧
    0 ≤ pipe.para.dynend ∧ pipe.para.dynend ≤ pipe.para.dynbytes

/-- The value `xioread_readline` returns on the line-editing path for the line
`Readline` gave: 0 for NULL, else the length of the line, plus one when that is
less than `bufsiz`. -/
def lineResult (line : Option (List Nat)) (bufsiz : Nat) : Int :=
  match line with
  | none => 0
  | some l => if strlen l < bufsiz then (strlen l : Int) + 1 else (strlen l : Int)

/-- The bytes that follow the last carriage return or line feed of `l`; all of `l`
when it holds neither. -/
def afterLastBreak : List Nat → List Nat
  | [] => []
  | b :: rest =>
    if CR ∈ rest ∨ LF ∈ rest then afterLastBreak rest
    else if b = CR ∨ b = LF then rest
    else b :: rest

/-- The tracked prompt the specification asks for after the writes `ws` to a buffer
of capacity `cap`: what follows the last carriage return or line feed in the
concatenation of the writes, cut from the left to `cap` bytes. -/
def specPrompt (cap : Nat) (ws : List (List Nat)) : List Nat :=
  lastN cap (afterLastBreak ws.flatten)

/-- An opened readline endpoint without dynamic prompt buffer (`noprompt`, or a
static prompt): `prompt` is the static prompt (`none` is NULL). -/
def staticPipe (prompt : Option (List Nat)) : Single :=
  { fd1 := 0, dtype := DataType.XIODATA_READLINE,
    howtoclose := HowToClose.XIOCLOSE_READLINE, fdtype := FdType.FDTYPE_SINGLE,
    ttyvalid := false, savetty := ⟨false, false, 0⟩,
    para := { history_file := none, prompt := prompt, dynbytes := 0, dynprompt := none,
              dynend := 0, hasnoecho := false, noecho := fun _ => false } }

/-- An opened readline endpoint with dynamic prompt buffer `buf` (of 513 bytes),
empty tracked prompt (`dynend = dynprompt`), and the compiled `noecho` pattern
`re`. -/
def noechoPipe (buf : List Nat) (re : List Nat → Bool) : Single :=
  { fd1 := 0, dtype := DataType.XIODATA_READLINE,
    howtoclose := HowToClose.XIOCLOSE_READLINE, fdtype := FdType.FDTYPE_SINGLE,
    ttyvalid := false, savetty := ⟨false, false, 0⟩,
    para := { history_file := none, prompt := none, dynbytes := READLINE_MAXPROMPT,
              dynprompt := some buf, dynend := 0, hasnoecho := true, noecho := re } }

/-- The terminal attributes `xioopen_readline` leaves: `ICANON` and `ECHO` cleared. -/
def rawTty : Termios := ⟨false, false, 0⟩

/-- The parameter block of an endpoint that has not been opened: all zero. -/
def zeroPara : Readline :=
  { history_file := none, prompt := none, dynbytes := 0, dynprompt := none, dynend := 0,
    hasnoecho := false, noecho := fun _ => false }

/-- An `xiofile_t` before it is opened: no descriptor, no flags, no buffer. -/
def closedFile : XioFile :=
  { doesconvert := false, otherflags := 0,
    stream := { fd1 := -1, dtype := DataType.XIODATA_STREAM,
                howtoclose := HowToClose.XIOCLOSE_UNSPEC, fdtype := FdType.FDTYPE_UNSPEC,
                ttyvalid := false, savetty := ⟨false, false, 0⟩, para := zeroPara } }

/-- An environment for `xioopen_readline`: fd 0 is a terminal in canonical mode with
echo, every call succeeds, `regcomp` compiles every pattern to the one that matches
the non-empty strings, allocated memory holds zeros. -/
def sampleOpenEnv : OpenEnv :=
  { tty := ⟨true, true, 0⟩, isatty := true, tcgetattr_ok := true,
    applyopts_single_ok := true, regcomp := fun _ => Except.ok (fun s => !s.isEmpty),
    junk := fun _ => 0, openlate := 0 }

/-- The prompt configuration `xioopen_readline` computes in lines 99-107 from the
options: the parameter block after `applyopts_offset` and the allocation of the
dynamic prompt buffer. -/
def promptConfig (para : Readline) (opts : List Opt) (junk : Nat → Nat) : Readline :=
  allocDynprompt (applyopts_offset para opts) (retropt_bool_noprompt false opts) junk

/-! ## `xioscan_readline` on the machine's memory -/

/-- The memory around `dynprompt` as the machine has it, the allocated buffer `buf`
together with what lies outside it: the byte at address `dynprompt + a`, addresses
taken modulo `SIZE_MOD`. -/
def memAround (buf : List Nat) (outside : Int → Nat) : Int → Nat :=
  fun a =>
    if a % SIZE_MOD < buf.length then buf.getD (a % SIZE_MOD).toNat 0
    else outside (a % SIZE_MOD)

/-- The libc function `memmove(dynprompt+dst, dynprompt+src, n)` on the machine's
memory, without regard to the bounds of any object: the `n` bytes from `src` on
appear from `dst` on (as if copied through a temporary). -/
def memmove_flat (mem : Int → Nat) (dst src n : Int) : Int → Nat :=
  fun a =>
    if (a - dst) % SIZE_MOD < n then mem ((src + (a - dst) % SIZE_MOD) % SIZE_MOD)
    else mem (a % SIZE_MOD)

/-- The libc function `memcpy(dynprompt+dst, from+src, n)` on the machine's memory,
without regard to the bounds of the destination.  The source is the caller's data
`from_`; in `xioscan_readline` it is read from `ptr` to its end (`ptr + len` is
`buff + bytes`), so the default of `getD` is never met. -/
def memcpy_flat (mem : Int → Nat) (dst : Int) (from_ : List Nat) (src n : Int) :
    Int → Nat :=
  fun a =>
    if (a - dst) % SIZE_MOD < n then from_.getD (src + (a - dst) % SIZE_MOD).toNat 0
    else mem (a % SIZE_MOD)

/-- The `n` bytes of the memory from `dynprompt` on. -/
def bufferOf (mem : Int → Nat) (n : Nat) : List Nat :=
  (List.range n).map (fun (i : Nat) => mem (i : Int))

/-- Source: `xioscan_readline` (xio-readline.c, lines 211-248) as the machine runs
it, with `memmove` and `memcpy` working on the memory around `dynprompt` whether or
not they stay inside the buffer.  `outside` is the memory outside the buffer; the
result is the endpoint (with the buffer as it is afterwards) and the memory. -/
def xioscan_readline_flat (pipe : Single) (outside : Int → Nat) (buff : List Nat) :
    Single × (Int → Nat) :=
  match pipe.para.dynprompt with
  | none => (pipe, outside)
  | some buf =>
    if pipe.dtype ≠ DataType.XIODATA_READLINE then (pipe, outside) else
    let mem := memAround buf outside
    let dynend2 := (scanStart pipe buff).1
    let ptr := (scanStart pipe buff).2
    let len := scanLen pipe buff
    if scanTrims pipe buff then
      -- memmove(dynprompt, dynend - (dynbytes - len), dynbytes - len)
      let n := scanMoveCount pipe buff
      let mem1 := memmove_flat mem 0 (dynend2 - n) n
      -- dynend = dynprompt + dynbytes - len
      let dynend3 : Int := (pipe.para.dynbytes : Int) - len
      -- memcpy(dynend, ptr, len); dynend = dynend + len
      let mem2 := memcpy_flat mem1 dynend3 buff ptr len
      ({ pipe with
          para := { pipe.para with dynprompt := some (bufferOf mem2 buf.length),
                                   dynend := dynend3 + len } }, mem2)
    else
      let mem2 := memcpy_flat mem dynend2 buff ptr len
      ({ pipe with
          para := { pipe.para with dynprompt := some (bufferOf mem2 buf.length),
                                   dynend := dynend2 + len } }, mem2)

/-- An opened readline endpoint whose tracked prompt is `> ` (the bytes 62 and 32,
`dynend = dynprompt + 2`) in a buffer of 513 bytes; `hasnoecho` says whether a
`noecho` pattern is configured, the pattern matches every non-empty prompt. -/
def trackedPipe (hasnoecho : Bool) : Single :=
  { fd1 := 0, dtype := DataType.XIODATA_READLINE,
    howtoclose := HowToClose.XIOCLOSE_READLINE, fdtype := FdType.FDTYPE_SINGLE,
    ttyvalid := false, savetty := ⟨false, false, 0⟩,
    para := { history_file := none, prompt := none, dynbytes := READLINE_MAXPROMPT,
              dynprompt := some (62 :: 32 :: 0 :: List.replicate 510 0), dynend := 2,
              hasnoecho := hasnoecho, noecho := fun s => !s.isEmpty } }

/-! ## Theorems -/

theorem memrchr_eq_none_of_not_mem {l : List Nat} {c : Nat} (h : c ∉ l) :
    memrchr l c = none := by
  induction l with
  | nil => rfl
  | cons b rest ih =>
    have hb : ¬ b = c := fun hbc => h (by simp [hbc])
    have hr : c ∉ rest := fun hm => h (List.mem_cons_of_mem _ hm)
    simp [memrchr, ih hr, hb]

theorem memrchr_cons_self_of_not_mem {l : List Nat} {c : Nat} (h : c ∉ l) :
    memrchr (c :: l) c = some 0 := by
  simp [memrchr, memrchr_eq_none_of_not_mem h]

theorem writeAt_length (buf : List Nat) (off : Nat) (data : List Nat)
    (h : off + data.length ≤ buf.length) : (writeAt buf off data).length = buf.length := by
  simp only [writeAt, List.length_append, List.length_take, List.length_drop]
  omega

theorem writeAt_take (buf : List Nat) (off : Nat) (data : List Nat)
    (h : off + data.length ≤ buf.length) :
    (writeAt buf off data).take (off + data.length) = buf.take off ++ data := by
  have h1 : (buf.take off ++ data).length = off + data.length := by
    simp only [List.length_append, List.length_take]; omega
  unfold writeAt
  rw [← h1, List.take_left]

theorem lastN_append_of_le (D : Nat) (a b : List Nat) (h : D ≤ b.length) :
    lastN D (a ++ b) = lastN D b := by
  unfold lastN
  rw [List.length_append, List.drop_append_eq_append_drop]
  have h1 : a.length + b.length - D = a.length + (b.length - D) := by omega
  have h2 : a.length + b.length - D - a.length = b.length - D := by omega
  rw [h2, List.drop_eq_nil_of_le (by omega)]
  rfl

theorem lastN_of_length_le (D : Nat) (a : List Nat) (h : a.length ≤ D) : lastN D a = a := by
  unfold lastN
  have : a.length - D = 0 := by omega
  rw [this]; rfl

theorem lastN_length (D : Nat) (a : List Nat) : (lastN D a).length = min D a.length := by
  unfold lastN
  rw [List.length_drop]; omega

theorem memmove_ofNat (buf : List Nat) (d s n : Nat) (h1 : d + n ≤ buf.length)
    (h2 : s + n ≤ buf.length) :
    memmove buf (d : Int) (s : Int) (n : Int) =
      some (writeAt buf d ((buf.drop s).take n)) := by
  unfold memmove
  rw [if_pos]
  · simp
  · refine ⟨by omega, by omega, by omega, by omega, by omega⟩

theorem memcpy_ofNat (buf from_ : List Nat) (d s n : Nat) (h1 : d + n ≤ buf.length)
    (h2 : s + n ≤ from_.length) :
    memcpy buf (d : Int) from_ (s : Int) (n : Int) =
      some (writeAt buf d ((from_.drop s).take n)) := by
  unfold memcpy
  rw [if_pos]
  · simp
  · refine ⟨by omega, by omega, by omega, by omega, by omega⟩

theorem memmove_none_of_large (buf : List Nat) (d s n : Int) (h : (buf.length : Int) < n) :
    memmove buf d s n = none := by
  unfold memmove
  rw [if_neg]
  intro hc
  omega

theorem scan_core (pipe : Single) (buf buff : List Nat) (e p : Nat)
    (hd : pipe.dtype = DataType.XIODATA_READLINE)
    (hbuf : pipe.para.dynprompt = some buf)
    (hlen : buf.length = pipe.para.dynbytes + 1)
    (hst : scanStart pipe buff = ((e : Int), (p : Int)))
    (he : e ≤ pipe.para.dynbytes) (hp : p ≤ buff.length)
    (hfit : buff.length - p ≤ pipe.para.dynbytes)
    (hsz : (pipe.para.dynbytes : Int) + buff.length < SIZE_MOD) :
    ∃ pipe1, xioscan_readline pipe buff = some pipe1 ∧
      retained pipe1 = lastN pipe.para.dynbytes (buf.take e ++ buff.drop p) ∧
      pipe1.para.dynbytes = pipe.para.dynbytes ∧ WellFormed pipe1 := by
  obtain ⟨L, hL⟩ : ∃ L : Nat, L = buff.length - p := ⟨_, rfl⟩
  have hdrop : (buff.drop p).take L = buff.drop p := by
    apply List.take_of_length_le
    rw [List.length_drop]; omega
  have hdl : (buff.drop p).length = L := by rw [List.length_drop]; omega
  have hlenv : scanLen pipe buff = (L : Int) := by
    unfold scanLen
    rw [hst]
    unfold SIZE_MOD at *
    show (0 - (p : Int) + (buff.length : Int)) % 18446744073709551616 = (L : Int)
    omega
  by_cases htr : pipe.para.dynbytes < e + L
  · -- the trimming branch
    obtain ⟨n, hn⟩ : ∃ n : Nat, n = pipe.para.dynbytes - L := ⟨_, rfl⟩
    have htrims : scanTrims pipe buff = true := by
      unfold scanTrims
      rw [hst, hlenv]
      simp only [decide_eq_true_eq]
      unfold SIZE_MOD at *
      omega
    have hcnt : scanMoveCount pipe buff = (n : Int) := by
      unfold scanMoveCount
      rw [hlenv]
      unfold SIZE_MOD at *
      omega
    have hsrc : ((e : Int) - (n : Int)) = ((e - n : Nat) : Int) := by omega
    have hde : ((pipe.para.dynbytes : Int) - (L : Int)) = (n : Int) := by omega
    have hmid : ((buf.drop (e - n)).take n).length = n := by
      rw [List.length_take, List.length_drop]; omega
    have hb1len : (writeAt buf 0 ((buf.drop (e - n)).take n)).length = buf.length :=
      writeAt_length _ _ _ (by rw [hmid]; omega)
    have hres : xioscan_readline pipe buff = some { pipe with
        para := { pipe.para with
          dynprompt := some (writeAt (writeAt buf 0 ((buf.drop (e - n)).take n)) n
            ((buff.drop p).take L)),
          dynend := (n : Int) + (L : Int) } } := by
      unfold xioscan_readline
      simp only [hbuf, hd, ne_eq, not_true_eq_false, if_false, htrims, if_true, hcnt, hst,
        hlenv, hsrc, hde]
      have h0 : ((0 : Nat) : Int) = 0 := rfl
      rw [← h0, memmove_ofNat buf 0 (e - n) n (by omega) (by omega)]
      simp only
      rw [memcpy_ofNat _ buff n p L (by rw [hb1len]; omega) (by omega)]
    refine ⟨_, hres, ?_, ?_, ?_⟩
    · simp only [retained, hdrop]
      have htn : ((n : Int) + (L : Int)).toNat = n + (buff.drop p).length := by
        rw [hdl]; omega
      rw [htn, writeAt_take _ _ _ (by rw [hb1len, hdl]; omega)]
      have h1 : (writeAt buf 0 ((buf.drop (e - n)).take n)).take n =
          (buf.drop (e - n)).take n := by
        have := writeAt_take buf 0 ((buf.drop (e - n)).take n) (by rw [hmid]; omega)
        rw [hmid] at this
        simpa using this
      rw [h1]
      unfold lastN
      have hlt : (buf.take e).length = e := by rw [List.length_take]; omega
      rw [List.length_append, hlt, hdl, List.drop_append_of_le_length (by rw [hlt]; omega)]
      have h2 : e + L - pipe.para.dynbytes = e - n := by omega
      rw [h2, List.drop_take]
      have h3 : e - (e - n) = n := by omega
      rw [h3]
    · rfl
    · refine ⟨hd, _, rfl, ?_, ?_, ?_⟩
      · rw [hdrop, writeAt_length _ _ _ (by rw [hb1len, hdl]; omega), hb1len, hlen]
      · simp only; omega
      · simp only; omega
  · -- plain append
    have htrims : scanTrims pipe buff = false := by
      unfold scanTrims
      rw [hst, hlenv]
      simp only [decide_eq_false_iff_not]
      unfold SIZE_MOD at *
      omega
    have hres : xioscan_readline pipe buff = some { pipe with
        para := { pipe.para with
          dynprompt := some (writeAt buf e ((buff.drop p).take L)),
          dynend := (e : Int) + (L : Int) } } := by
      unfold xioscan_readline
      simp only [hbuf, hd, ne_eq, not_true_eq_false, if_false, htrims, hst, hlenv]
      rw [memcpy_ofNat _ buff e p L (by omega) (by omega)]
      simp
    refine ⟨_, hres, ?_, ?_, ?_⟩
    · simp only [retained, hdrop]
      have htn : ((e : Int) + (L : Int)).toNat = e + (buff.drop p).length := by
        rw [hdl]; omega
      rw [htn, writeAt_take _ _ _ (by rw [hdl]; omega)]
      rw [lastN_of_length_le]
      rw [List.length_append, List.length_take, hdl]; omega
    · rfl
    · refine ⟨hd, _, rfl, ?_, ?_, ?_⟩
      · rw [hdrop, writeAt_length _ _ _ (by rw [hdl]; omega), hlen]
      · simp only; omega
      · simp only; omega

theorem lastN_min (D : Nat) (l : List Nat) : lastN (min D l.length) l = lastN D l := by
  unfold lastN
  congr 1
  omega

theorem scanStart_of_no_break (pipe : Single) (buff : List Nat) (hcr : CR ∉ buff)
    (hlf : LF ∉ buff) :
    scanStart pipe buff =
      (pipe.para.dynend, if (buff.length : Int) > (pipe.para.dynbytes : Int)
        then (buff.length : Int) - (pipe.para.dynbytes : Int) else 0) := by
  unfold scanStart
  simp only [memrchr_eq_none_of_not_mem hcr, memrchr_eq_none_of_not_mem hlf]

theorem scan_no_break (pipe : Single) (data : List Nat) (hwf : WellFormed pipe)
    (hcr : CR ∉ data) (hlf : LF ∉ data)
    (hsz : (pipe.para.dynbytes : Int) + data.length < SIZE_MOD) :
    ∃ pipe1, xioscan_readline pipe data = some pipe1 ∧
      retained pipe1 = lastN pipe.para.dynbytes (retained pipe ++ data) ∧
      pipe1.para.dynbytes = pipe.para.dynbytes ∧ WellFormed pipe1 := by
  obtain ⟨hd, buf, hbuf, hlen, h0, hle⟩ := hwf
  obtain ⟨e, he⟩ : ∃ e : Nat, pipe.para.dynend = (e : Int) := ⟨_, (Int.toNat_of_nonneg h0).symm⟩
  have hret : retained pipe = buf.take e := by
    simp only [retained, hbuf, he, Int.toNat_ofNat]
  have hrl : (buf.take e).length = e := by rw [List.length_take]; omega
  by_cases hbig : pipe.para.dynbytes < data.length
  · have hst : scanStart pipe data = ((e : Int), ((data.length - pipe.para.dynbytes : Nat) : Int)) := by
      rw [scanStart_of_no_break pipe data hcr hlf, he, if_pos (by omega)]
      congr 1
      omega
    obtain ⟨pipe1, h1, h2, h3, h4⟩ := scan_core pipe buf data e _ hd hbuf hlen hst
      (by omega) (by omega) (by omega) hsz
    refine ⟨pipe1, h1, ?_, h3, h4⟩
    rw [h2, hret, lastN_append_of_le _ _ _ (by rw [List.length_drop]; omega),
      lastN_append_of_le _ _ _ (by omega)]
    unfold lastN
    rw [List.drop_drop, List.length_drop]
    congr 1
    omega
  · have hst : scanStart pipe data = ((e : Int), ((0 : Nat) : Int)) := by
      rw [scanStart_of_no_break pipe data hcr hlf, he, if_neg (by omega)]
      rfl
    obtain ⟨pipe1, h1, h2, h3, h4⟩ := scan_core pipe buf data e 0 hd hbuf hlen hst
      (by omega) (by omega) (by omega) hsz
    refine ⟨pipe1, h1, ?_, h3, h4⟩
    rw [h2, hret]
    rfl

theorem scan_cr_overlong (pipe : Single) (tail : List Nat) (hwf : WellFormed pipe)
    (hcr : CR ∉ tail) (hlf : LF ∉ tail) (hlong : pipe.para.dynbytes < tail.length)
    (hsz : (tail.length : Int) + 1 < SIZE_MOD) :
    scanStart pipe (CR :: tail) = (0, 1) ∧
    scanLen pipe (CR :: tail) = (tail.length : Int) ∧
    scanTrims pipe (CR :: tail) = true ∧
    scanMoveCount pipe (CR :: tail) =
      SIZE_MOD - ((tail.length : Int) - (pipe.para.dynbytes : Int)) ∧
    xioscan_readline pipe (CR :: tail) = none := by
  obtain ⟨hd, buf, hbuf, hlen, h0, hle⟩ := hwf
  have hlf2 : LF ∉ CR :: tail := by
    intro h
    rcases List.mem_cons.mp h with h | h
    · exact absurd h (by decide)
    · exact hlf h
  have hst : scanStart pipe (CR :: tail) = (0, 1) := by
    unfold scanStart
    simp only [memrchr_cons_self_of_not_mem hcr, memrchr_eq_none_of_not_mem hlf2]
    rfl
  have hlenv : scanLen pipe (CR :: tail) = (tail.length : Int) := by
    unfold scanLen
    rw [hst]
    unfold SIZE_MOD at *
    show (0 - (1 : Int) + ((CR :: tail).length : Int)) % 18446744073709551616 = _
    rw [List.length_cons]
    omega
  have htr : scanTrims pipe (CR :: tail) = true := by
    unfold scanTrims
    rw [hst, hlenv]
    simp only [decide_eq_true_eq]
    unfold SIZE_MOD at *
    omega
  have hcnt : scanMoveCount pipe (CR :: tail) =
      SIZE_MOD - ((tail.length : Int) - (pipe.para.dynbytes : Int)) := by
    unfold scanMoveCount
    rw [hlenv]
    unfold SIZE_MOD at *
    omega
  refine ⟨hst, hlenv, htr, hcnt, ?_⟩
  unfold xioscan_readline
  simp only [hbuf, hd, ne_eq, not_true_eq_false, if_false, htr, if_true]
  rw [memmove_none_of_large]
  rw [hcnt, hlen]
  unfold SIZE_MOD at *
  push_cast
  omega

theorem not_mem_of_memrchr_eq_none {l : List Nat} {c : Nat} (h : memrchr l c = none) :
    c ∉ l := by
  induction l with
  | nil => exact List.not_mem_nil _
  | cons b rest ih =>
    unfold memrchr at h
    cases hr : memrchr rest c with
    | some i => rw [hr] at h; cases h
    | none =>
      rw [hr] at h
      by_cases hb : b = c
      · rw [if_pos hb] at h; cases h
      · intro hm
        rcases List.mem_cons.mp hm with hm | hm
        · exact hb hm.symm
        · exact ih hr hm

theorem memrchr_some_spec {l : List Nat} {c i : Nat} (h : memrchr l c = some i) :
    i < l.length ∧ l[i]? = some c ∧ c ∉ l.drop (i + 1) := by
  induction l generalizing i with
  | nil => cases h
  | cons b rest ih =>
    unfold memrchr at h
    cases hr : memrchr rest c with
    | some k =>
      rw [hr] at h
      cases h
      obtain ⟨h1, h2, h3⟩ := ih hr
      exact ⟨by rw [List.length_cons]; omega, by simpa using h2, by simpa using h3⟩
    | none =>
      rw [hr] at h
      by_cases hb : b = c
      · rw [if_pos hb] at h
        cases h
        exact ⟨by rw [List.length_cons]; omega, by simp [hb],
          by simpa using not_mem_of_memrchr_eq_none hr⟩
      · rw [if_neg hb] at h; cases h

theorem afterLastBreak_of_no_break (l : List Nat) (hcr : CR ∉ l) (hlf : LF ∉ l) :
    afterLastBreak l = l := by
  cases l with
  | nil => rfl
  | cons b rest =>
    have h1 : CR ∉ rest := fun h => hcr (List.mem_cons_of_mem _ h)
    have h2 : LF ∉ rest := fun h => hlf (List.mem_cons_of_mem _ h)
    have h3 : ¬ b = CR := fun h => hcr (by simp [h])
    have h4 : ¬ b = LF := fun h => hlf (by simp [h])
    simp [afterLastBreak, h1, h2, h3, h4]

theorem afterLastBreak_drop (l : List Nat) (i b : Nat) (hi : l[i]? = some b)
    (hb : b = CR ∨ b = LF) (hcr : CR ∉ l.drop (i + 1)) (hlf : LF ∉ l.drop (i + 1)) :
    afterLastBreak l = l.drop (i + 1) := by
  induction l generalizing i with
  | nil => simp at hi
  | cons a rest ih =>
    cases i with
    | zero =>
      have ha : a = b := by simpa using hi
      have h1 : CR ∉ rest := by simpa using hcr
      have h2 : LF ∉ rest := by simpa using hlf
      subst ha
      simp [afterLastBreak, h1, h2, hb]
    | succ k =>
      have hk : rest[k]? = some b := by simpa using hi
      have hmem : b ∈ rest := List.getElem?_mem hk
      have hbr : CR ∈ rest ∨ LF ∈ rest := by
        rcases hb with hb | hb
        · left; rw [← hb]; exact hmem
        · right; rw [← hb]; exact hmem
      have := ih k hk (by simpa using hcr) (by simpa using hlf)
      simp only [afterLastBreak, if_pos hbr, this, List.drop_succ_cons]

theorem afterLastBreak_cons (b : Nat) (rest : List Nat) :
    afterLastBreak (b :: rest) =
      if CR ∈ rest ∨ LF ∈ rest then afterLastBreak rest
      else if b = CR ∨ b = LF then rest else b :: rest := rfl

theorem afterLastBreak_append (x l : List Nat) :
    afterLastBreak (x ++ l) =
      if CR ∈ l ∨ LF ∈ l then afterLastBreak l else afterLastBreak x ++ l := by
  induction x with
  | nil =>
    by_cases h : CR ∈ l ∨ LF ∈ l
    · simp [h]
    · rw [if_neg h]
      have h' := not_or.mp h
      simp [afterLastBreak, afterLastBreak_of_no_break l h'.1 h'.2]
  | cons b rest ih =>
    by_cases h : CR ∈ l ∨ LF ∈ l
    · have hbr : CR ∈ rest ++ l ∨ LF ∈ rest ++ l := by
        rcases h with h | h
        · left; exact List.mem_append_right _ h
        · right; exact List.mem_append_right _ h
      rw [if_pos h] at ih ⊢
      rw [List.cons_append, afterLastBreak_cons, if_pos hbr, ih]
    · rw [if_neg h] at ih ⊢
      have h' := not_or.mp h
      by_cases hr : CR ∈ rest ∨ LF ∈ rest
      · have hbr : CR ∈ rest ++ l ∨ LF ∈ rest ++ l := by
          rcases hr with hr | hr
          · left; exact List.mem_append_left _ hr
          · right; exact List.mem_append_left _ hr
        rw [List.cons_append, afterLastBreak_cons, if_pos hbr, ih, afterLastBreak_cons,
          if_pos hr]
      · have hr' := not_or.mp hr
        have hbr : ¬ (CR ∈ rest ++ l ∨ LF ∈ rest ++ l) := by
          simp [List.mem_append, h'.1, h'.2, hr'.1, hr'.2]
        rw [List.cons_append, afterLastBreak_cons, if_neg hbr, afterLastBreak_cons,
          if_neg hr]
        by_cases hb : b = CR ∨ b = LF
        · rw [if_pos hb, if_pos hb]
        · rw [if_neg hb, if_neg hb, List.cons_append]

theorem lastN_drop_of_le (D p : Nat) (w : List Nat) (h : D + p ≤ w.length) :
    lastN D (w.drop p) = lastN D w := by
  unfold lastN
  rw [List.drop_drop, List.length_drop]
  congr 1
  omega

theorem lastN_lastN_append (D : Nat) (x w : List Nat) :
    lastN D (lastN D x ++ w) = lastN D (x ++ w) := by
  unfold lastN
  by_cases h : x.length ≤ D
  · have : x.length - D = 0 := by omega
    rw [this, List.drop_zero]
  · have hl : (x.drop (x.length - D)).length = D := by rw [List.length_drop]; omega
    rw [List.length_append, hl, List.length_append,
      List.drop_append_eq_append_drop, List.drop_append_eq_append_drop, List.drop_drop, hl]
    have h1 : x.length - D + (D + w.length - D) = x.length + w.length - D := by omega
    have h2 : D + w.length - D - D = x.length + w.length - D - x.length := by omega
    rw [h1, h2]

theorem not_mem_drop_of_le {l : List Nat} {c a b : Nat} (h : c ∉ l.drop a) (hab : a ≤ b) :
    c ∉ l.drop b := by
  intro hm
  apply h
  have hb : b = a + (b - a) := by omega
  rw [hb, ← List.drop_drop] at hm
  exact List.mem_of_mem_drop hm

theorem scan_reset (pipe : Single) (w : List Nat) (k b : Nat) (hwf : WellFormed pipe)
    (hsz : (pipe.para.dynbytes : Int) + w.length < SIZE_MOD)
    (hst : scanStart pipe w = (0, (k : Int) + 1)) (hk : w[k]? = some b)
    (hb : b = CR ∨ b = LF) (hcr : CR ∉ w.drop (k + 1)) (hlf : LF ∉ w.drop (k + 1))
    (hfit : w.length - (k + 1) ≤ pipe.para.dynbytes) :
    ∃ pipe1, xioscan_readline pipe w = some pipe1 ∧
      retained pipe1 = lastN pipe.para.dynbytes (afterLastBreak w) ∧
      pipe1.para.dynbytes = pipe.para.dynbytes ∧ WellFormed pipe1 := by
  obtain ⟨hd, buf, hbuf, hlen, _, _⟩ := hwf
  have hklt : k < w.length := by
    by_contra hc
    rw [List.getElem?_eq_none (by omega)] at hk
    cases hk
  have hst' : scanStart pipe w = (((0 : Nat) : Int), ((k + 1 : Nat) : Int)) := by
    rw [hst]; push_cast; rfl
  obtain ⟨pipe1, h1, h2, h3, h4⟩ := scan_core pipe buf w 0 (k + 1) hd hbuf hlen hst'
    (by omega) (by omega) hfit hsz
  refine ⟨pipe1, h1, ?_, h3, h4⟩
  rw [h2, afterLastBreak_drop w k b hk hb hcr hlf]
  rfl

theorem scan_step (pipe : Single) (w : List Nat) (hwf : WellFormed pipe)
    (hsz : (pipe.para.dynbytes : Int) + w.length < SIZE_MOD)
    (hguard : CR ∈ w → (afterLastBreak w).length ≤ pipe.para.dynbytes) :
    ∃ pipe1, xioscan_readline pipe w = some pipe1 ∧
      retained pipe1 = lastN pipe.para.dynbytes
        (if CR ∈ w ∨ LF ∈ w then afterLastBreak w else retained pipe ++ w) ∧
      pipe1.para.dynbytes = pipe.para.dynbytes ∧ WellFormed pipe1 := by
  cases hcr : memrchr w CR with
  | none =>
    have hncr : CR ∉ w := not_mem_of_memrchr_eq_none hcr
    cases hlf : memrchr w LF with
    | none =>
      have hnlf : LF ∉ w := not_mem_of_memrchr_eq_none hlf
      rw [if_neg (by simp [hncr, hnlf])]
      exact scan_no_break pipe w hwf hncr hnlf hsz
    | some j =>
      obtain ⟨hj1, hj2, hj3⟩ := memrchr_some_spec hlf
      have hmem : LF ∈ w := List.getElem?_mem hj2
      rw [if_pos (Or.inr hmem)]
      by_cases hge : (j : Int) ≥
          (if (w.length : Int) > (pipe.para.dynbytes : Int)
            then (w.length : Int) - (pipe.para.dynbytes : Int) else 0)
      · have hst : scanStart pipe w = (0, (j : Int) + 1) := by
          unfold scanStart
          simp only [hcr, hlf]
          rw [if_pos hge]
        refine scan_reset pipe w j LF hwf hsz hst hj2 (Or.inr rfl)
          (fun h => hncr (List.mem_of_mem_drop h)) hj3 ?_
        split at hge <;> omega
      · have hbig : pipe.para.dynbytes < w.length := by
          by_contra hc
          rw [if_neg (by omega)] at hge
          omega
        rw [if_pos (by omega)] at hge
        obtain ⟨hd, buf, hbuf, hlen, h0, hle⟩ := hwf
        obtain ⟨e, he⟩ : ∃ e : Nat, pipe.para.dynend = (e : Int) :=
          ⟨_, (Int.toNat_of_nonneg h0).symm⟩
        have hptr : (if (w.length : Int) > (pipe.para.dynbytes : Int)
            then (w.length : Int) - (pipe.para.dynbytes : Int) else 0) =
            ((w.length - pipe.para.dynbytes : Nat) : Int) := by
          rw [if_pos (by omega)]
          omega
        have hst : scanStart pipe w =
            ((e : Int), ((w.length - pipe.para.dynbytes : Nat) : Int)) := by
          unfold scanStart
          simp only [hcr, hlf, hptr]
          rw [if_neg (by omega), he]
        obtain ⟨pipe1, h1, h2, h3, h4⟩ := scan_core pipe buf w e _ hd hbuf hlen hst
          (by omega) (by omega) (by omega) hsz
        refine ⟨pipe1, h1, ?_, h3, h4⟩
        rw [h2, lastN_append_of_le _ _ _ (by rw [List.length_drop]; omega),
          lastN_drop_of_le _ _ _ (by omega),
          afterLastBreak_drop w j LF hj2 (Or.inr rfl)
            (fun h => hncr (List.mem_of_mem_drop h)) hj3,
          lastN_drop_of_le _ _ _ (by omega)]
  | some i =>
    obtain ⟨hi1, hi2, hi3⟩ := memrchr_some_spec hcr
    have hmem : CR ∈ w := List.getElem?_mem hi2
    have hg := hguard hmem
    rw [if_pos (Or.inl hmem)]
    cases hlf : memrchr w LF with
    | none =>
      have hnlf : LF ∉ w := not_mem_of_memrchr_eq_none hlf
      have hst : scanStart pipe w = (0, (i : Int) + 1) := by
        unfold scanStart
        simp only [hcr, hlf]
      have hal := afterLastBreak_drop w i CR hi2 (Or.inl rfl) hi3
        (fun h => hnlf (List.mem_of_mem_drop h))
      refine scan_reset pipe w i CR hwf hsz hst hi2 (Or.inl rfl) hi3
        (fun h => hnlf (List.mem_of_mem_drop h)) ?_
      rw [hal, List.length_drop] at hg
      exact hg
    | some j =>
      obtain ⟨hj1, hj2, hj3⟩ := memrchr_some_spec hlf
      by_cases hge : (j : Int) ≥ (i : Int) + 1
      · have hst : scanStart pipe w = (0, (j : Int) + 1) := by
          unfold scanStart
          simp only [hcr, hlf]
          rw [if_pos hge]
        have hcr' : CR ∉ w.drop (j + 1) := not_mem_drop_of_le hi3 (by omega)
        have hal := afterLastBreak_drop w j LF hj2 (Or.inr rfl) hcr' hj3
        refine scan_reset pipe w j LF hwf hsz hst hj2 (Or.inr rfl) hcr' hj3 ?_
        rw [hal, List.length_drop] at hg
        exact hg
      · have hst : scanStart pipe w = (0, (i : Int) + 1) := by
          unfold scanStart
          simp only [hcr, hlf]
          rw [if_neg hge]
        have hlf' : LF ∉ w.drop (i + 1) := not_mem_drop_of_le hj3 (by omega)
        have hal := afterLastBreak_drop w i CR hi2 (Or.inl rfl) hi3 hlf'
        refine scan_reset pipe w i CR hwf hsz hst hi2 (Or.inl rfl) hi3 hlf' ?_
        rw [hal, List.length_drop] at hg
        exact hg

theorem wellFormed_freshPipe (junk : Nat → Nat) : WellFormed (freshPipe junk) := by
  refine ⟨rfl, Malloc junk (READLINE_MAXPROMPT + 1), rfl, ?_, ?_, ?_⟩
  · simp [Malloc, freshPipe, freshPara]
  · exact le_refl _
  · simp [freshPipe, freshPara]

theorem not_mem_replicate_of_ne (n a b : Nat) (h : a ≠ b) : a ∉ List.replicate n b := by
  intro hm
  exact h (List.eq_of_mem_replicate hm)

/-- In the bounds-checked embedding the single write of a carriage return followed
by 513 letters `A` to a freshly opened endpoint has no result: the `memmove` of the
trimming branch leaves the buffer.  What the machine leaves behind there is the
subject of `xioscan_readline_flat`. -/
theorem scanAll_overlong_cr_undefined (junk : Nat → Nat) :
    scanAll (freshPipe junk) [CR :: List.replicate 513 65] = none ∧
    ¬ ∃ pipe1, scanAll (freshPipe junk) [CR :: List.replicate 513 65] = some pipe1 ∧
      0 ≤ pipe1.para.dynend ∧ pipe1.para.dynend ≤ (pipe1.para.dynbytes : Int) := by
  have h := (scan_cr_overlong (freshPipe junk) (List.replicate 513 65)
    (wellFormed_freshPipe junk) (not_mem_replicate_of_ne _ _ _ (by decide))
    (not_mem_replicate_of_ne _ _ _ (by decide))
    (by rw [List.length_replicate]; exact Nat.lt_succ_self 512)
    (by rw [List.length_replicate]; unfold SIZE_MOD; norm_num)).2.2.2.2
  have hnone : scanAll (freshPipe junk) [CR :: List.replicate 513 65] = none := by
    unfold scanAll
    rw [h]
  refine ⟨hnone, ?_⟩
  rintro ⟨p, hp, _⟩
  rw [hnone] at hp
  cases hp

/-- C10 (failing input): on a freshly opened endpoint (`dynend - dynprompt = 0`,
`dynbytes = 512`) and the write of a carriage return followed by 513 letters `A`,
the trimming branch is taken with `len = 513 > dynbytes`, the `memmove` count
`dynbytes - len` wraps to `2^64 - 1`, and the call has no defined result. -/
theorem scan_trim_len_exceeds_dynbytes (junk : Nat → Nat) :
    WellFormed (freshPipe junk) ∧
    scanTrims (freshPipe junk) (CR :: List.replicate 513 65) = true ∧
    scanLen (freshPipe junk) (CR :: List.replicate 513 65) = 513 ∧
    ¬ (scanLen (freshPipe junk) (CR :: List.replicate 513 65) ≤
        ((freshPipe junk).para.dynbytes : Int)) ∧
    scanMoveCount (freshPipe junk) (CR :: List.replicate 513 65) = SIZE_MOD - 1 ∧
    xioscan_readline (freshPipe junk) (CR :: List.replicate 513 65) = none := by
  obtain ⟨_, h2, h3, h4, h5⟩ := scan_cr_overlong (freshPipe junk) (List.replicate 513 65)
    (wellFormed_freshPipe junk) (not_mem_replicate_of_ne _ _ _ (by decide))
    (not_mem_replicate_of_ne _ _ _ (by decide))
    (by rw [List.length_replicate]; exact Nat.lt_succ_self 512)
    (by rw [List.length_replicate]; unfold SIZE_MOD; norm_num)
  have hl : scanLen (freshPipe junk) (CR :: List.replicate 513 65) = 513 := by
    rw [h2, List.length_replicate]; rfl
  refine ⟨wellFormed_freshPipe junk, h3, hl, ?_, ?_, h5⟩
  · rw [hl]
    show ¬ ((513 : Int) ≤ ((512 : Nat) : Int))
    norm_num
  · rw [h4, List.length_replicate]
    show SIZE_MOD - (((513 : Nat) : Int) - ((512 : Nat) : Int)) = SIZE_MOD - 1
    norm_num

/-- C3: for every consistent buffer state and every write that contains neither a
carriage return nor a line feed (buffer and write fit the address space together),
`xioscan_readline` leaves as retained content the last
`min(dynbytes, |old| + |data|)` bytes of `old ++ data`; a write of at least
`dynbytes` bytes leaves exactly its own last `dynbytes` bytes. -/
theorem scan_left_trimming_append (pipe : Single) (data : List Nat)
    (hwf : WellFormed pipe) (hcr : CR ∉ data) (hlf : LF ∉ data)
    (hsz : (pipe.para.dynbytes : Int) + data.length < SIZE_MOD) :
    ∃ pipe1, xioscan_readline pipe data = some pipe1 ∧
      retained pipe1 =
        lastN (min pipe.para.dynbytes ((retained pipe).length + data.length))
          (retained pipe ++ data) ∧
      (pipe.para.dynbytes ≤ data.length →
        retained pipe1 = lastN pipe.para.dynbytes data) ∧
      WellFormed pipe1 := by
  obtain ⟨pipe1, h1, h2, _, h4⟩ := scan_no_break pipe data hwf hcr hlf hsz
  refine ⟨pipe1, h1, ?_, ?_, h4⟩
  · rw [h2, ← List.length_append, lastN_min]
  · intro hle
    rw [h2, lastN_append_of_le _ _ _ hle]

/-- Witness for C3 (scenario D): a write of 1000 letters `A` to a freshly opened
endpoint with capacity 512. -/
theorem scan_left_trimming_append_witness :
    WellFormed (freshPipe (fun _ => 0)) ∧ CR ∉ List.replicate 1000 65 ∧
    LF ∉ List.replicate 1000 65 ∧
    ∃ pipe1, xioscan_readline (freshPipe (fun _ => 0)) (List.replicate 1000 65) =
        some pipe1 ∧
      retained pipe1 =
        lastN (min (freshPipe (fun _ => 0)).para.dynbytes
            ((retained (freshPipe (fun _ => 0))).length + (List.replicate 1000 65).length))
          (retained (freshPipe (fun _ => 0)) ++ List.replicate 1000 65) ∧
      ((freshPipe (fun _ => 0)).para.dynbytes ≤ (List.replicate 1000 65).length →
        retained pipe1 = lastN (freshPipe (fun _ => 0)).para.dynbytes
          (List.replicate 1000 65)) ∧
      WellFormed pipe1 :=
  ⟨wellFormed_freshPipe _, not_mem_replicate_of_ne _ _ _ (by decide),
    not_mem_replicate_of_ne _ _ _ (by decide),
    scan_left_trimming_append (freshPipe (fun _ => 0)) (List.replicate 1000 65)
      (wellFormed_freshPipe _) (not_mem_replicate_of_ne _ _ _ (by decide))
      (not_mem_replicate_of_ne _ _ _ (by decide))
      (by
        rw [List.length_replicate]
        show ((512 : Nat) : Int) + ((1000 : Nat) : Int) < SIZE_MOD
        unfold SIZE_MOD
        norm_num)⟩

theorem scanAll_safe (ws : List (List Nat)) (pipe : Single) (acc : List Nat)
    (hwf : WellFormed pipe)
    (hinv : retained pipe = lastN pipe.para.dynbytes (afterLastBreak acc))
    (hsafe : ∀ w ∈ ws, (pipe.para.dynbytes : Int) + w.length < SIZE_MOD ∧
      (CR ∈ w → (afterLastBreak w).length ≤ pipe.para.dynbytes)) :
    ∃ pipe1, scanAll pipe ws = some pipe1 ∧ WellFormed pipe1 ∧
      pipe1.para.dynbytes = pipe.para.dynbytes ∧
      retained pipe1 = lastN pipe.para.dynbytes (afterLastBreak (acc ++ ws.flatten)) := by
  induction ws generalizing pipe acc with
  | nil => exact ⟨pipe, rfl, hwf, rfl, by simpa using hinv⟩
  | cons w rest ih =>
    obtain ⟨hsz, hg⟩ := hsafe w (List.mem_cons_self _ _)
    obtain ⟨p1, h1, h2, h3, h4⟩ := scan_step pipe w hwf hsz hg
    have hinv1 : retained p1 = lastN p1.para.dynbytes (afterLastBreak (acc ++ w)) := by
      rw [h2, h3, afterLastBreak_append]
      by_cases hb : CR ∈ w ∨ LF ∈ w
      · rw [if_pos hb, if_pos hb]
      · rw [if_neg hb, if_neg hb, hinv, lastN_lastN_append]
    obtain ⟨p2, g1, g2, g3, g4⟩ := ih p1 (acc ++ w) h4 hinv1 (by
      intro v hv
      rw [h3]
      exact hsafe v (List.mem_cons_of_mem _ hv))
    refine ⟨p2, ?_, g2, by rw [g3, h3], ?_⟩
    · unfold scanAll
      rw [h1]
      exact g1
    · rw [g4, h3, List.flatten_cons, List.append_assoc]

/-- Outside the overlong-carriage-return case the scanner does what the
specification asks: from the freshly opened state, for every sequence of writes in
which each write that holds a carriage return has at most `dynbytes` bytes after its
last carriage return or line feed, `dynend` stays within the buffer and the tracked
prompt is the specified one. -/
theorem scanAll_fresh_safe (junk : Nat → Nat) (ws : List (List Nat))
    (hsafe : ∀ w ∈ ws, (READLINE_MAXPROMPT : Int) + w.length < SIZE_MOD ∧
      (CR ∈ w → (afterLastBreak w).length ≤ READLINE_MAXPROMPT)) :
    ∃ pipe1, scanAll (freshPipe junk) ws = some pipe1 ∧
      0 ≤ pipe1.para.dynend ∧ pipe1.para.dynend ≤ (pipe1.para.dynbytes : Int) ∧
      pipe1.para.dynbytes = READLINE_MAXPROMPT ∧
      retained pipe1 = specPrompt READLINE_MAXPROMPT ws := by
  obtain ⟨p, h1, h2, h3, h4⟩ := scanAll_safe ws (freshPipe junk) [] (wellFormed_freshPipe junk)
    rfl hsafe
  obtain ⟨_, buf, _, _, h5, h6⟩ := h2
  exact ⟨p, h1, h5, h6, h3, by rw [h4]; rfl⟩

theorem retryLoop_after_interrupts (k : Nat) (r : SysResult) (rest : List SysResult)
    (h : r ≠ SysResult.eintr) :
    retryLoop (List.replicate k SysResult.eintr ++ r :: rest) = some r := by
  induction k with
  | zero =>
    cases r with
    | eintr => exact absurd rfl h
    | fail e => rfl
    | ok d => rfl
  | succ n ih =>
    rw [List.replicate_succ, List.cons_append]
    unfold retryLoop
    exact ih

theorem cstring_zero_cons (l : List Nat) : cstring (0 :: l) = some [] := by
  simp [cstring]

theorem store_zero_cons (b c : Nat) (l : List Nat) : store (b :: l) 0 c = some (c :: l) := by
  unfold store
  rw [if_pos]
  · rfl
  · constructor
    · exact le_refl _
    · rw [List.length_cons]; omega

/-- C4 (failing input): `Readline` returns the five characters `hello`, the caller
announces a buffer of 3 bytes: `xioread_readline` places 3 bytes in the buffer and
returns 5. -/
theorem read_line_longer_than_bufsiz :
    ∃ out, xioread_readline (staticPipe none)
        ⟨rawTty, [], [], some [104, 101, 108, 108, 111]⟩ [9, 9, 9, 9, 9, 9, 9, 9] 3 =
          some out ∧
      out.ret = 5 ∧ out.buff = [104, 101, 108, 9, 9, 9, 9, 9] ∧ ¬ (out.ret ≤ 3) := by
  refine ⟨_, rfl, ?_, ?_, ?_⟩
  · decide
  · decide
  · decide

theorem read_noecho_fail (pipe : Single) (env : ReadEnv) (buf buf1 buff : List Nat)
    (bufsiz errno : Nat) (hb : pipe.para.dynprompt = some buf)
    (hc : noechoCond pipe = some true) (hs : store buf pipe.para.dynend 0 = some buf1)
    (hr : retryLoop env.reads = some (SysResult.fail errno)) :
    xioread_readline pipe env buff bufsiz =
      some { ret := -1,
             pipe := { pipe with para := { pipe.para with dynprompt := some buf1 } },
             tty := { env.tty with icanon := true }, buff := buff, noechoPath := true,
             readlineArg := none, history := none, log := [Diag.error_read errno] } := by
  unfold xioread_readline
  simp only [hc, hb]
  unfold xioread_noecho
  simp only [hs, hr]

theorem read_noecho_ok (pipe : Single) (env : ReadEnv) (buf buf1 buff data : List Nat)
    (bufsiz : Nat) (hb : pipe.para.dynprompt = some buf)
    (hc : noechoCond pipe = some true) (hs : store buf pipe.para.dynend 0 = some buf1)
    (hr : retryLoop env.reads = some (SysResult.ok data))
    (hfit : (data.take bufsiz).length ≤ buff.length) :
    xioread_readline pipe env buff bufsiz =
      some { ret := (data.take bufsiz).length,
             pipe := { pipe with
               para := { pipe.para with dynprompt := some buf1, dynend := 0 } },
             tty := env.tty, buff := writeAt buff 0 (data.take bufsiz),
             noechoPath := true, readlineArg := none, history := none, log := [] } := by
  unfold xioread_readline
  simp only [hc, hb]
  unfold xioread_noecho
  simp only [hs, hr, if_pos hfit]

theorem noechoCond_noechoPipe_zero (l : List Nat) (re : List Nat → Bool) :
    noechoCond (noechoPipe (0 :: l) re) = some (re []) := by
  unfold noechoCond
  simp only [noechoPipe, cstring_zero_cons, if_true]

/-- C5 (failing input): the terminal is in the state `xioopen_readline` left it
(`ICANON` and `ECHO` cleared), the `noecho` pattern matches the prompt, and `Read`
fails with `EIO` (5) after `k` interrupts: `xioread_readline` returns -1 and the
terminal is left with `ICANON` set. -/
theorem read_noecho_error_leaves_icanon (l : List Nat) (k : Nat) :
    ∃ out, xioread_readline (noechoPipe (0 :: l) (fun _ => true))
        ⟨rawTty, List.replicate k SysResult.eintr ++ [SysResult.fail 5], [], none⟩
        [0, 0, 0, 0] 4 = some out ∧
      out.noechoPath = true ∧ out.ret = -1 ∧ out.tty = ⟨true, false, 0⟩ ∧
      out.tty ≠ rawTty :=
  ⟨_, read_noecho_fail (noechoPipe (0 :: l) (fun _ => true))
      ⟨rawTty, List.replicate k SysResult.eintr ++ [SysResult.fail 5], [], none⟩
      (0 :: l) (0 :: l) [0, 0, 0, 0] 4 5 rfl (noechoCond_noechoPipe_zero l _)
      (store_zero_cons 0 0 l) (retryLoop_after_interrupts k _ [] (by simp)),
    rfl, rfl, rfl, by simp [rawTty]⟩

theorem strlen_append_zero (a rest : List Nat) (h : ∀ x ∈ a, x ≠ 0) :
    strlen (a ++ 0 :: rest) = a.length := by
  unfold strlen
  rw [List.takeWhile_append_of_pos (by intro x hx; simpa using h x hx)]
  simp

theorem cstr_nonzero (l : List Nat) : ∀ x ∈ l.takeWhile (fun b => b ≠ 0), x ≠ 0 := by
  intro x hx
  simpa using List.mem_takeWhile_imp hx

theorem xioread_finish_some (pipe : Single) (tty : Termios) (arg : Option (List Nat))
    (log : List Diag) (line : Option (List Nat)) (buff : List Nat) (bufsiz : Nat)
    (hfit : bufsiz < buff.length) :
    ∃ out, xioread_finish pipe tty arg log line buff bufsiz = some out ∧
      out.readlineArg = some arg ∧ out.pipe = pipe ∧ out.noechoPath = false ∧
      out.ret = lineResult line bufsiz := by
  cases line with
  | none => exact ⟨_, rfl, rfl, rfl, rfl, rfl⟩
  | some l =>
    have hcp : strncpy buff l bufsiz = some (writeAt buff 0
        ((l.takeWhile (fun b => b ≠ 0)).take bufsiz ++
          List.replicate (bufsiz - strlen l) 0)) := by
      unfold strncpy
      rw [if_pos (by omega)]
    by_cases hlt : strlen l < bufsiz
    · obtain ⟨k, hk⟩ : ∃ k, bufsiz - strlen l = k + 1 := ⟨bufsiz - strlen l - 1, by omega⟩
      have htake : (l.takeWhile (fun b => b ≠ 0)).take bufsiz =
          l.takeWhile (fun b => b ≠ 0) := by
        apply List.take_of_length_le
        unfold strlen at hlt
        omega
      have hb1 : writeAt buff 0 ((l.takeWhile (fun b => b ≠ 0)).take bufsiz ++
          List.replicate (bufsiz - strlen l) 0) =
          l.takeWhile (fun b => b ≠ 0) ++
            0 :: (List.replicate k 0 ++ buff.drop bufsiz) := by
        have hlen : (l.takeWhile (fun b => b ≠ 0) ++ List.replicate (k + 1) 0).length =
            bufsiz := by
          rw [List.length_append, List.length_replicate]
          unfold strlen at hk hlt
          omega
        unfold writeAt
        rw [htake, hk, hlen, List.replicate_succ]
        simp
      have hsl : strlen (l.takeWhile (fun b => b ≠ 0) ++
          0 :: (List.replicate k 0 ++ buff.drop bufsiz)) = strlen l :=
        strlen_append_zero _ _ (cstr_nonzero l)
      have hcat : strcat_newline (l.takeWhile (fun b => b ≠ 0) ++
          0 :: (List.replicate k 0 ++ buff.drop bufsiz)) =
          some (writeAt (l.takeWhile (fun b => b ≠ 0) ++
            0 :: (List.replicate k 0 ++ buff.drop bufsiz)) (strlen l) [LF, 0]) := by
        unfold strcat_newline
        rw [hsl, if_pos]
        refine ⟨by simp, ?_⟩
        simp only [List.length_append, List.length_cons, List.length_replicate,
          List.length_drop]
        unfold strlen at hk hlt ⊢
        omega
      have hres : xioread_finish pipe tty arg log (some l) buff bufsiz =
          some { ret := (strlen l : Int) + 1, pipe := pipe,
                 tty := xiotermios_clrflag tty LFlag.ECHO,
                 buff := writeAt (l.takeWhile (fun b => b ≠ 0) ++
                   0 :: (List.replicate k 0 ++ buff.drop bufsiz)) (strlen l) [LF, 0],
                 noechoPath := false, readlineArg := some arg, history := some l,
                 log := log } := by
        unfold xioread_finish
        simp only [hcp, hb1, hcat]
        rw [if_pos (by exact_mod_cast hlt)]
      refine ⟨_, hres, rfl, rfl, rfl, ?_⟩
      simp [lineResult, hlt]
    · have hres : xioread_finish pipe tty arg log (some l) buff bufsiz =
          some { ret := (strlen l : Int), pipe := pipe,
                 tty := xiotermios_clrflag tty LFlag.ECHO,
                 buff := writeAt buff 0
                   ((l.takeWhile (fun b => b ≠ 0)).take bufsiz ++
                     List.replicate (bufsiz - strlen l) 0),
                 noechoPath := false, readlineArg := some arg, history := some l,
                 log := log } := by
        unfold xioread_finish
        simp only [hcp]
        rw [if_neg (by intro h; exact hlt (by exact_mod_cast h))]
      refine ⟨_, hres, rfl, rfl, rfl, ?_⟩
      simp [lineResult, hlt]

theorem lineResult_le_iff (l : List Nat) (bufsiz : Nat) :
    lineResult (some l) bufsiz ≤ (bufsiz : Int) ↔ strlen l ≤ bufsiz := by
  unfold lineResult
  by_cases h : strlen l < bufsiz
  · simp only [if_pos h]
    omega
  · simp only [if_neg h]
    omega

theorem noechoCond_of_static (pipe : Single) (hb : pipe.para.dynprompt = none) :
    noechoCond pipe = some false := by
  unfold noechoCond
  rw [hb]

theorem read_line_static (pipe : Single) (env : ReadEnv) (log : List Diag)
    (buff : List Nat) (bufsiz : Nat) (hb : pipe.para.dynprompt = none)
    (hw : writeCR pipe env = some log) :
    xioread_readline pipe env buff bufsiz =
      xioread_finish pipe (xiotermios_setflag env.tty LFlag.ECHO) pipe.para.prompt log
        env.line buff bufsiz := by
  unfold xioread_readline
  simp only [noechoCond_of_static pipe hb, hw, hb]

theorem read_line_dyn (pipe : Single) (env : ReadEnv) (buf buf1 s : List Nat)
    (log : List Diag) (buff : List Nat) (bufsiz : Nat)
    (hb : pipe.para.dynprompt = some buf) (hc : noechoCond pipe = some false)
    (hw : writeCR pipe env = some log) (hs : store buf pipe.para.dynend 0 = some buf1)
    (hcs : cstring buf1 = some s) :
    xioread_readline pipe env buff bufsiz =
      xioread_finish
        { pipe with para := { pipe.para with dynprompt := some buf1, dynend := 0 } }
        (xiotermios_setflag env.tty LFlag.ECHO) (some s) log env.line buff bufsiz := by
  unfold xioread_readline
  simp only [hc, hw, hb, hs, hcs]

/-- C9 (failing input): two endpoints with the same compiled pattern (it matches
every non-empty prompt), the same empty tracked prompt (`dynend = dynprompt`) and
buffers that differ only in the stale byte at `dynend`: the first takes the raw
non-echoing read, the second the line-editing read. -/
theorem noecho_decision_depends_on_stale_bytes (l : List Nat) :
    retained (noechoPipe (80 :: 0 :: l) (fun s => !s.isEmpty)) =
      retained (noechoPipe (0 :: 0 :: l) (fun s => !s.isEmpty)) ∧
    (noechoPipe (80 :: 0 :: l) (fun s => !s.isEmpty)).para.dynend =
      (noechoPipe (0 :: 0 :: l) (fun s => !s.isEmpty)).para.dynend ∧
    ∃ outA outB,
      xioread_readline (noechoPipe (80 :: 0 :: l) (fun s => !s.isEmpty))
        ⟨rawTty, [SysResult.ok [115]], [SysResult.ok [CR]], none⟩ [0, 0, 0, 0] 3 =
          some outA ∧
      xioread_readline (noechoPipe (0 :: 0 :: l) (fun s => !s.isEmpty))
        ⟨rawTty, [SysResult.ok [115]], [SysResult.ok [CR]], none⟩ [0, 0, 0, 0] 3 =
          some outB ∧
      outA.noechoPath = true ∧ outB.noechoPath = false := by
  refine ⟨rfl, rfl, _, _,
    read_noecho_ok (noechoPipe (80 :: 0 :: l) (fun s => !s.isEmpty))
      ⟨rawTty, [SysResult.ok [115]], [SysResult.ok [CR]], none⟩ (80 :: 0 :: l)
      (0 :: 0 :: l) [0, 0, 0, 0] [115] 3 rfl ?_ (store_zero_cons _ _ _) rfl (by decide),
    (read_line_dyn (noechoPipe (0 :: 0 :: l) (fun s => !s.isEmpty))
      ⟨rawTty, [SysResult.ok [115]], [SysResult.ok [CR]], none⟩ (0 :: 0 :: l)
      (0 :: 0 :: l) [] [] [0, 0, 0, 0] 3 rfl (noechoCond_noechoPipe_zero _ _) rfl
      (store_zero_cons _ _ _) (cstring_zero_cons _)).trans rfl, rfl, rfl⟩
  unfold noechoCond
  simp [noechoPipe, cstring]

theorem scan_plain (pipe : Single) (buf buff buf2 : List Nat) (e p L : Int)
    (hd : pipe.dtype = DataType.XIODATA_READLINE)
    (hbuf : pipe.para.dynprompt = some buf)
    (hst : scanStart pipe buff = (e, p)) (hlen : scanLen pipe buff = L)
    (htr : scanTrims pipe buff = false) (hm : memcpy buf e buff p L = some buf2) :
    xioscan_readline pipe buff =
      some { pipe with
        para := { pipe.para with dynprompt := some buf2, dynend := e + L } } := by
  unfold xioscan_readline
  simp only [hbuf, hd, ne_eq, not_true_eq_false, if_false, htr, hst, hlen, hm]
  rfl

/-- A state with empty tracked prompt and a stale `P` at `dynend` arises from the
state with a zeroed buffer: the peer writes `P`, and the next read takes the
echo-suppression path and resets `dynend`, leaving the `P` in the buffer. -/
theorem stale_state_reachable (l : List Nat) :
    ∃ pipe1 out, xioscan_readline (noechoPipe (0 :: 0 :: l) (fun s => !s.isEmpty)) [80] =
        some pipe1 ∧
      xioread_readline pipe1 ⟨rawTty, [SysResult.ok [115]], [], none⟩ [0, 0, 0, 0] 3 =
        some out ∧
      out.pipe = noechoPipe (80 :: 0 :: l) (fun s => !s.isEmpty) := by
  have hst : scanStart (noechoPipe (0 :: 0 :: l) (fun s => !s.isEmpty)) [80] = (0, 0) := by
    simp [scanStart, memrchr, noechoPipe, CR, LF, READLINE_MAXPROMPT]
  have hlen : scanLen (noechoPipe (0 :: 0 :: l) (fun s => !s.isEmpty)) [80] = 1 := by
    unfold scanLen
    rw [hst]
    rfl
  have htr : scanTrims (noechoPipe (0 :: 0 :: l) (fun s => !s.isEmpty)) [80] = false := by
    unfold scanTrims
    rw [hst, hlen]
    rfl
  have hm : memcpy (0 :: 0 :: l) 0 [80] 0 1 = some (80 :: 0 :: l) := by
    have h := memcpy_ofNat (0 :: 0 :: l) [80] 0 0 1 (by simp) (by simp)
    simpa [writeAt] using h
  have hscan := scan_plain _ (0 :: 0 :: l) [80] (80 :: 0 :: l) 0 0 1 rfl rfl hst hlen htr hm
  have hread := read_noecho_ok
    { noechoPipe (0 :: 0 :: l) (fun s => !s.isEmpty) with
      para := { (noechoPipe (0 :: 0 :: l) (fun s => !s.isEmpty)).para with
        dynprompt := some (80 :: 0 :: l), dynend := 0 + 1 } }
    ⟨rawTty, [SysResult.ok [115]], [], none⟩ (80 :: 0 :: l)
    (80 :: 0 :: l) [0, 0, 0, 0] [115] 3 rfl (by simp [noechoCond, noechoPipe, cstring])
    (by simp [store, noechoPipe]) rfl (by decide)
  exact ⟨_, _, hscan, hread, rfl⟩

theorem applyopts_offset_dynprompt (opts : List Opt) (para : Readline) :
    (applyopts_offset para opts).dynprompt = para.dynprompt := by
  induction opts generalizing para with
  | nil => rfl
  | cons o rest ih =>
    cases o <;> simp only [applyopts_offset] <;> rw [ih]

theorem applyopts_offset_prompt (opts : List Opt) (para : Readline) (foo : List Nat)
    (honly : ∀ v, Opt.prompt v ∈ opts → v = foo)
    (h : para.prompt = some foo ∨ Opt.prompt foo ∈ opts) :
    (applyopts_offset para opts).prompt = some foo := by
  induction opts generalizing para with
  | nil =>
    rcases h with h | h
    · exact h
    · exact absurd h (List.not_mem_nil _)
  | cons o rest ih =>
    have honly1 : ∀ v, Opt.prompt v ∈ rest → v = foo :=
      fun v hv => honly v (List.mem_cons_of_mem _ hv)
    cases o with
    | prompt v =>
      simp only [applyopts_offset]
      apply ih _ honly1
      left
      rw [honly v (List.mem_cons_self _ _)]
    | history_file v =>
      simp only [applyopts_offset]
      apply ih _ honly1
      rcases h with h | h
      · left; exact h
      · right
        rcases List.mem_cons.mp h with h | h
        · cases h
        · exact h
    | noprompt v =>
      simp only [applyopts_offset]
      apply ih _ honly1
      rcases h with h | h
      · left; exact h
      · right
        rcases List.mem_cons.mp h with h | h
        · cases h
        · exact h
    | noecho v =>
      simp only [applyopts_offset]
      apply ih _ honly1
      rcases h with h | h
      · left; exact h
      · right
        rcases List.mem_cons.mp h with h | h
        · cases h
        · exact h
    | other c =>
      simp only [applyopts_offset]
      apply ih _ honly1
      rcases h with h | h
      · left; exact h
      · right
        rcases List.mem_cons.mp h with h | h
        · cases h
        · exact h

theorem open_prompt_fields (opts : List Opt) (xioflags : XioFlags) (xfd : XioFile)
    (env : OpenEnv) (hm : xioflags.mayconvert = true)
    (ha : env.applyopts_single_ok = true) :
    (xioopen_readline 1 opts xioflags xfd env).xfd.stream.para.prompt =
      (promptConfig xfd.stream.para opts env.junk).prompt ∧
    (xioopen_readline 1 opts xioflags xfd env).xfd.stream.para.dynprompt =
      (promptConfig xfd.stream.para opts env.junk).dynprompt ∧
    (xioopen_readline 1 opts xioflags xfd env).xfd.stream.para.dynend =
      (promptConfig xfd.stream.para opts env.junk).dynend ∧
    (xioopen_readline 1 opts xioflags xfd env).xfd.stream.para.dynbytes =
      (promptConfig xfd.stream.para opts env.junk).dynbytes ∧
    (xioopen_readline 1 opts xioflags xfd env).xfd.stream.dtype =
      DataType.XIODATA_READLINE := by
  unfold xioopen_readline promptConfig
  simp only [ne_eq, not_true_eq_false, if_false, hm, ha, Bool.not_true]
  cases hi : (env.isatty && env.tcgetattr_ok) <;>
    cases hn : retropt_string_noecho opts with
    | none => simp
    | some pattern =>
      cases hr : env.regcomp pattern <;> simp [hr]

theorem retryLoop_ne_eintr (l : List SysResult) : retryLoop l ≠ some SysResult.eintr := by
  induction l with
  | nil => simp [retryLoop]
  | cons r rest ih =>
    cases r with
    | eintr => simpa [retryLoop] using ih
    | fail e => simp [retryLoop]
    | ok d => simp [retryLoop]

theorem writeCR_some (pipe : Single) (env : ReadEnv) (r : SysResult)
    (hw : retryLoop env.writes = some r) : ∃ log, writeCR pipe env = some log := by
  unfold writeCR
  by_cases hp : pipe.para.prompt.isSome = true ∨ pipe.para.dynprompt.isSome = true
  · rw [if_pos hp, hw]
    cases r with
    | eintr => exact absurd hw (retryLoop_ne_eintr _)
    | fail e => exact ⟨_, rfl⟩
    | ok d =>
      by_cases hd : d.length < 1
      · exact ⟨[Diag.warn_short_write d.length], by simp only [if_pos hd]⟩
      · exact ⟨[], by simp only [if_neg hd]⟩
  · rw [if_neg hp]
    exact ⟨_, rfl⟩

theorem static_prompt_read (pipe : Single) (renv : ReadEnv) (buff : List Nat)
    (bufsiz : Nat) (r : SysResult) (hb : pipe.para.dynprompt = none)
    (hw : retryLoop renv.writes = some r) (hfit : bufsiz < buff.length) :
    ∃ rout, xioread_readline pipe renv buff bufsiz = some rout ∧
      rout.readlineArg = some pipe.para.prompt ∧ rout.noechoPath = false ∧
      rout.ret = lineResult renv.line bufsiz := by
  obtain ⟨log, hlog⟩ := writeCR_some pipe renv r hw
  obtain ⟨rout, h1, h2, _, h4, h5⟩ := xioread_finish_some pipe
    (xiotermios_setflag renv.tty LFlag.ECHO) pipe.para.prompt log renv.line buff bufsiz hfit
  exact ⟨rout, by rw [read_line_static pipe renv log buff bufsiz hb hlog]; exact h1, h2, h4, h5⟩

theorem open_static_prompt (opts : List Opt) (foo : List Nat) (xioflags : XioFlags)
    (xfd : XioFile) (env : OpenEnv) (hp : Opt.prompt foo ∈ opts)
    (honly : ∀ v, Opt.prompt v ∈ opts → v = foo) (hm : xioflags.mayconvert = true)
    (ha : env.applyopts_single_ok = true) (hx : xfd.stream.para.dynprompt = none) :
    (xioopen_readline 1 opts xioflags xfd env).xfd.stream.para.prompt = some foo ∧
    (xioopen_readline 1 opts xioflags xfd env).xfd.stream.para.dynprompt = none := by
  obtain ⟨h1, h2, _⟩ := open_prompt_fields opts xioflags xfd env hm ha
  have hpr : (applyopts_offset xfd.stream.para opts).prompt = some foo :=
    applyopts_offset_prompt opts _ foo honly (Or.inr hp)
  have hcfg : promptConfig xfd.stream.para opts env.junk =
      applyopts_offset xfd.stream.para opts := by
    unfold promptConfig allocDynprompt
    rw [hpr]
    simp
  rw [h1, h2, hcfg, applyopts_offset_dynprompt]
  exact ⟨hpr, hx⟩

/-- C6 (amended): for every option list that holds `prompt=foo` and no other prompt
value, whether and wherever it holds `noprompt`, the endpoint `xioopen_readline`
sets up has the static prompt `foo` and no dynamic prompt buffer, and every
line-editing read hands `foo` to `Readline`. -/
theorem open_prompt_beats_noprompt (opts : List Opt) (foo : List Nat)
    (xioflags : XioFlags) (xfd : XioFile) (env : OpenEnv) (hp : Opt.prompt foo ∈ opts)
    (honly : ∀ v, Opt.prompt v ∈ opts → v = foo) (hm : xioflags.mayconvert = true)
    (ha : env.applyopts_single_ok = true) (hx : xfd.stream.para.dynprompt = none) :
    (xioopen_readline 1 opts xioflags xfd env).xfd.stream.para.prompt = some foo ∧
    (xioopen_readline 1 opts xioflags xfd env).xfd.stream.para.dynprompt = none ∧
    ∀ (renv : ReadEnv) (buff : List Nat) (bufsiz : Nat) (r : SysResult),
      retryLoop renv.writes = some r → bufsiz < buff.length →
      ∃ rout, xioread_readline (xioopen_readline 1 opts xioflags xfd env).xfd.stream
          renv buff bufsiz = some rout ∧
        rout.readlineArg = some (some foo) ∧ rout.noechoPath = false := by
  obtain ⟨h1, h2⟩ := open_static_prompt opts foo xioflags xfd env hp honly hm ha hx
  refine ⟨h1, h2, ?_⟩
  intro renv buff bufsiz r hw hfit
  obtain ⟨rout, g1, g2, g3, _⟩ := static_prompt_read _ renv buff bufsiz r h2 hw hfit
  exact ⟨rout, g1, by rw [g2, h1], g3⟩

/-- Witness for C6 (amended): `noprompt` first, `prompt=foo` last. -/
theorem open_prompt_beats_noprompt_witness :
    Opt.prompt [102, 111, 111] ∈ [Opt.noprompt true, Opt.prompt [102, 111, 111]] ∧
    (xioopen_readline 1 [Opt.noprompt true, Opt.prompt [102, 111, 111]] ⟨2, true⟩
      closedFile sampleOpenEnv).xfd.stream.para.prompt = some [102, 111, 111] ∧
    (xioopen_readline 1 [Opt.noprompt true, Opt.prompt [102, 111, 111]] ⟨2, true⟩
      closedFile sampleOpenEnv).xfd.stream.para.dynprompt = none ∧
    ∀ (renv : ReadEnv) (buff : List Nat) (bufsiz : Nat) (r : SysResult),
      retryLoop renv.writes = some r → bufsiz < buff.length →
      ∃ rout, xioread_readline (xioopen_readline 1
          [Opt.noprompt true, Opt.prompt [102, 111, 111]] ⟨2, true⟩ closedFile
          sampleOpenEnv).xfd.stream renv buff bufsiz = some rout ∧
        rout.readlineArg = some (some [102, 111, 111]) ∧ rout.noechoPath = false :=
  ⟨by decide,
    open_prompt_beats_noprompt [Opt.noprompt true, Opt.prompt [102, 111, 111]]
      [102, 111, 111] ⟨2, true⟩ closedFile sampleOpenEnv (by decide)
      (by
        intro v hv
        simp only [List.mem_cons, List.mem_singleton, List.not_mem_nil, or_false] at hv
        rcases hv with hv | hv
        · cases hv
        · cases hv; rfl)
      rfl rfl rfl⟩

/-- C6 (counterexample): with the options `prompt=foo,noprompt`, `noprompt` last,
the opened endpoint keeps the static prompt `foo`, and a read hands `foo` to
`Readline`: it does not read without prompt text. -/
theorem open_noprompt_last_still_prompts :
    ∃ rout, xioread_readline (xioopen_readline 1
        [Opt.prompt [102, 111, 111], Opt.noprompt true] ⟨2, true⟩ closedFile
        sampleOpenEnv).xfd.stream
        ⟨rawTty, [], [SysResult.ok [CR]], some [104, 105]⟩ [0, 0, 0, 0, 0, 0, 0, 0] 7 =
          some rout ∧
      rout.readlineArg = some (some [102, 111, 111]) ∧
      rout.readlineArg ≠ some none ∧ rout.readlineArg ≠ some (some []) := by
  obtain ⟨h1, h2⟩ := open_static_prompt [Opt.prompt [102, 111, 111], Opt.noprompt true]
    [102, 111, 111] ⟨2, true⟩ closedFile sampleOpenEnv (by decide)
    (by
      intro v hv
      simp only [List.mem_cons, List.mem_singleton, List.not_mem_nil, or_false] at hv
      rcases hv with hv | hv
      · cases hv; rfl
      · cases hv)
    rfl rfl rfl
  obtain ⟨rout, g1, g2, _⟩ := static_prompt_read _
    ⟨rawTty, [], [SysResult.ok [CR]], some [104, 105]⟩ [0, 0, 0, 0, 0, 0, 0, 0] 7
    (SysResult.ok [CR]) h2 rfl (by decide)
  refine ⟨rout, g1, by rw [g2, h1], ?_, ?_⟩
  · rw [g2, h1]; simp
  · rw [g2, h1]; simp

/-- C7: `xioopen_readline` with `argc` other than 1 returns `STAT_NORETRY` and leaves
the endpoint and the terminal as they were (its one effect is the error message);
with `argc = 1` the message about the parameters is not issued, and when data
conversion is allowed the open goes on to mark the endpoint and assign fd 0. -/
theorem open_arity_check (argc : Int) (opts : List Opt) (xioflags : XioFlags)
    (xfd : XioFile) (env : OpenEnv) :
    (argc ≠ 1 →
      (xioopen_readline argc opts xioflags xfd env).status = OpenStatus.STAT_NORETRY ∧
      (xioopen_readline argc opts xioflags xfd env).xfd = xfd ∧
      (xioopen_readline argc opts xioflags xfd env).tty = env.tty ∧
      (xioopen_readline argc opts xioflags xfd env).log = [Diag.error_parameters]) ∧
    (argc = 1 →
      Diag.error_parameters ∉ (xioopen_readline argc opts xioflags xfd env).log ∧
      (xioflags.mayconvert = true →
        (xioopen_readline argc opts xioflags xfd env).xfd.doesconvert = true ∧
        (xioopen_readline argc opts xioflags xfd env).xfd.stream.fd1 = 0 ∧
        (xioopen_readline argc opts xioflags xfd env).xfd.stream.dtype =
          DataType.XIODATA_READLINE)) := by
  constructor
  · intro h
    unfold xioopen_readline
    rw [if_pos h]
    exact ⟨rfl, rfl, rfl, rfl⟩
  · intro h
    subst h
    unfold xioopen_readline
    simp only [ne_eq, not_true_eq_false, if_false]
    cases hm : xioflags.mayconvert <;> cases ha : env.applyopts_single_ok <;>
      cases hi : env.isatty <;> cases ht : env.tcgetattr_ok <;>
      cases hn : retropt_string_noecho opts with
      | none => simp
      | some pattern => cases hr : env.regcomp pattern <;> simp [hr]

/-- Witness for C7: the readline address called with one positional parameter
(`argc = 2`). -/
theorem open_arity_check_witness :
    (2 : Int) ≠ 1 ∧
    (xioopen_readline 2 [] ⟨2, true⟩ closedFile sampleOpenEnv).status =
      OpenStatus.STAT_NORETRY ∧
    (xioopen_readline 2 [] ⟨2, true⟩ closedFile sampleOpenEnv).xfd = closedFile ∧
    (xioopen_readline 2 [] ⟨2, true⟩ closedFile sampleOpenEnv).tty = sampleOpenEnv.tty ∧
    (xioopen_readline 2 [] ⟨2, true⟩ closedFile sampleOpenEnv).log =
      [Diag.error_parameters] :=
  ⟨by decide, (open_arity_check 2 [] ⟨2, true⟩ closedFile sampleOpenEnv).1 (by decide)⟩

/-- The state `freshPipe` is the one `xioopen_readline` produces (lines 101-107):
without `prompt` and `noprompt` option the opened endpoint has
`dynbytes = READLINE_MAXPROMPT`, a buffer of `dynbytes+1` bytes and
`dynend = dynprompt`. -/
theorem open_allocates_dynprompt (opts : List Opt) (xioflags : XioFlags) (xfd : XioFile)
    (env : OpenEnv) (hm : xioflags.mayconvert = true)
    (ha : env.applyopts_single_ok = true)
    (hp : (applyopts_offset xfd.stream.para opts).prompt = none)
    (hn : retropt_bool_noprompt false opts = false) :
    (xioopen_readline 1 opts xioflags xfd env).xfd.stream.para.dynbytes =
      (freshPipe env.junk).para.dynbytes ∧
    (xioopen_readline 1 opts xioflags xfd env).xfd.stream.para.dynprompt =
      (freshPipe env.junk).para.dynprompt ∧
    (xioopen_readline 1 opts xioflags xfd env).xfd.stream.para.dynend =
      (freshPipe env.junk).para.dynend ∧
    WellFormed (xioopen_readline 1 opts xioflags xfd env).xfd.stream := by
  obtain ⟨_, h2, h3, h4, h5⟩ := open_prompt_fields opts xioflags xfd env hm ha
  have hcond : (!false && (applyopts_offset xfd.stream.para opts).prompt.isNone) = true := by
    rw [hp]; rfl
  have g2 : (promptConfig xfd.stream.para opts env.junk).dynprompt =
      some (Malloc env.junk (READLINE_MAXPROMPT + 1)) := by
    unfold promptConfig allocDynprompt
    rw [hn, if_pos hcond]
  have g3 : (promptConfig xfd.stream.para opts env.junk).dynend = 0 := by
    unfold promptConfig allocDynprompt
    rw [hn, if_pos hcond]
  have g4 : (promptConfig xfd.stream.para opts env.junk).dynbytes = READLINE_MAXPROMPT := by
    unfold promptConfig allocDynprompt
    rw [hn, if_pos hcond]
  rw [g2] at h2
  rw [g3] at h3
  rw [g4] at h4
  refine ⟨h4, h2, h3, h5, Malloc env.junk (READLINE_MAXPROMPT + 1), h2, ?_, ?_, ?_⟩
  · rw [h4]
    simp [Malloc]
  · rw [h3]
  · rw [h3, h4]
    exact Int.ofNat_nonneg _

/-- The success half of the echo-suppression round trip: when `Read` succeeds after
any number of interrupts, `xioread_readline` returns with the terminal attributes it
found. -/
theorem read_noecho_success_restores (pipe : Single) (env : ReadEnv)
    (buf buf1 buff data : List Nat) (bufsiz k : Nat) (rest : List SysResult)
    (hb : pipe.para.dynprompt = some buf) (hc : noechoCond pipe = some true)
    (hs : store buf pipe.para.dynend 0 = some buf1)
    (hr : env.reads = List.replicate k SysResult.eintr ++ SysResult.ok data :: rest)
    (hfit : (data.take bufsiz).length ≤ buff.length) :
    ∃ out, xioread_readline pipe env buff bufsiz = some out ∧ out.tty = env.tty ∧
      out.ret = (data.take bufsiz).length ∧ out.noechoPath = true :=
  ⟨_, read_noecho_ok pipe env buf buf1 buff data bufsiz hb hc hs
    (by rw [hr]; exact retryLoop_after_interrupts k _ rest (by simp)) hfit, rfl, rfl, rfl⟩


theorem store_spec {buf buf1 : List Nat} {off : Int} (h : store buf off 0 = some buf1) :
    ∃ e : Nat, off = (e : Int) ∧ e < buf.length ∧
      buf1 = buf.take e ++ 0 :: buf.drop (e + 1) := by
  unfold store at h
  by_cases hc : 0 ≤ off ∧ off < buf.length
  · rw [if_pos hc] at h
    refine ⟨off.toNat, (Int.toNat_of_nonneg hc.1).symm, by omega, ?_⟩
    have hlt : off.toNat < buf.length := by omega
    cases h
    rw [List.set_eq_take_append_cons_drop, if_pos hlt]
  · rw [if_neg hc] at h
    cases h

theorem store_some (buf : List Nat) (off : Int) (h0 : 0 ≤ off) (h1 : off < buf.length) :
    ∃ buf1, store buf off 0 = some buf1 := by
  unfold store
  rw [if_pos ⟨h0, h1⟩]
  exact ⟨_, rfl⟩

theorem cstring_append_zero (a rest : List Nat) :
    cstring (a ++ 0 :: rest) = some (a.takeWhile (fun b => b ≠ 0)) := by
  unfold cstring
  rw [if_pos (by simp)]
  congr 1
  rw [List.takeWhile_append]
  by_cases h : (a.takeWhile (fun b => b ≠ 0)).length = a.length
  · rw [if_pos h]
    have ha : a.takeWhile (fun b => b ≠ 0) = a := by
      have hp := List.takeWhile_prefix (fun b => decide (b ≠ 0)) (l := a)
      exact hp.eq_of_length h
    rw [ha, List.takeWhile_cons_of_neg (by simp), List.append_nil]
  · rw [if_neg h]

theorem xioread_finish_inv {pipe : Single} {tty : Termios} {arg : Option (List Nat)}
    {log : List Diag} {line : Option (List Nat)} {buff : List Nat} {bufsiz : Nat}
    {out : ReadOut} (h : xioread_finish pipe tty arg log line buff bufsiz = some out) :
    out.pipe = pipe ∧ out.readlineArg = some arg ∧ out.noechoPath = false ∧
      0 ≤ out.ret := by
  unfold xioread_finish at h
  cases line with
  | none =>
    simp only [Option.some.injEq] at h
    subst h
    exact ⟨rfl, rfl, rfl, le_refl _⟩
  | some l =>
    simp only at h
    cases hcp : strncpy buff l bufsiz with
    | none => rw [hcp] at h; cases h
    | some buff1 =>
      rw [hcp] at h
      simp only at h
      by_cases hlt : (strlen l : Int) < (bufsiz : Int)
      · rw [if_pos hlt] at h
        cases hcat : strcat_newline buff1 with
        | none => rw [hcat] at h; cases h
        | some buff2 =>
          rw [hcat] at h
          simp only [Option.some.injEq] at h
          subst h
          exact ⟨rfl, rfl, rfl, by simp only; omega⟩
      · rw [if_neg hlt] at h
        simp only [Option.some.injEq] at h
        subst h
        exact ⟨rfl, rfl, rfl, by simp only; omega⟩

theorem xioread_noecho_inv {pipe : Single} {env : ReadEnv} {buf buff : List Nat}
    {bufsiz : Nat} {out : ReadOut}
    (h : xioread_noecho pipe env buf buff bufsiz = some out) :
    ∃ buf1, store buf pipe.para.dynend 0 = some buf1 ∧ out.noechoPath = true ∧
      (out.ret = -1 ∨
        (out.tty = env.tty ∧ out.pipe = { pipe with
          para := { pipe.para with dynprompt := some buf1, dynend := 0 } })) := by
  unfold xioread_noecho at h
  cases hs : store buf pipe.para.dynend 0 with
  | none => rw [hs] at h; cases h
  | some buf1 =>
    rw [hs] at h
    simp only at h
    cases hr : retryLoop env.reads with
    | none => rw [hr] at h; cases h
    | some r =>
      rw [hr] at h
      cases r with
      | eintr => cases h
      | fail errno =>
        simp only [Option.some.injEq] at h
        subst h
        exact ⟨buf1, rfl, rfl, Or.inl rfl⟩
      | ok data =>
        simp only at h
        by_cases hfit : (data.take bufsiz).length ≤ buff.length
        · rw [if_pos hfit] at h
          simp only [Option.some.injEq] at h
          subst h
          exact ⟨buf1, rfl, rfl, Or.inr ⟨rfl, rfl⟩⟩
        · rw [if_neg hfit] at h
          cases h

theorem xioread_readline_inv {pipe : Single} {env : ReadEnv} {buf buff : List Nat}
    {bufsiz : Nat} {out : ReadOut} (hb : pipe.para.dynprompt = some buf)
    (h : xioread_readline pipe env buff bufsiz = some out) :
    ∃ buf1, store buf pipe.para.dynend 0 = some buf1 ∧
      ((out.noechoPath = true ∧
          (out.ret = -1 ∨
            (out.tty = env.tty ∧ out.pipe = { pipe with
              para := { pipe.para with dynprompt := some buf1, dynend := 0 } }))) ∨
        (out.noechoPath = false ∧ 0 ≤ out.ret ∧
          out.pipe = { pipe with
            para := { pipe.para with dynprompt := some buf1, dynend := 0 } } ∧
          ∃ s, cstring buf1 = some s ∧ out.readlineArg = some (some s))) := by
  unfold xioread_readline at h
  cases hc : noechoCond pipe with
  | none => rw [hc] at h; cases h
  | some c =>
    rw [hc] at h
    cases c with
    | true =>
      simp only [hb] at h
      obtain ⟨buf1, h1, h2, h3⟩ := xioread_noecho_inv h
      exact ⟨buf1, h1, Or.inl ⟨h2, h3⟩⟩
    | false =>
      simp only at h
      cases hw : writeCR pipe env with
      | none => rw [hw] at h; cases h
      | some log =>
        rw [hw] at h
        simp only [hb] at h
        cases hs : store buf pipe.para.dynend 0 with
        | none => rw [hs] at h; cases h
        | some buf1 =>
          rw [hs] at h
          simp only at h
          cases hcs : cstring buf1 with
          | none => rw [hcs] at h; cases h
          | some s =>
            rw [hcs] at h
            obtain ⟨g1, g2, g3, g4⟩ := xioread_finish_inv h
            exact ⟨buf1, rfl, Or.inr ⟨g3, g4, g1, s, hcs, g2⟩⟩

theorem xioread_readline_defined (pipe : Single) (env : ReadEnv) (buff : List Nat)
    (bufsiz : Nat) (buf : List Nat) (r1 r2 : SysResult) (hwf : WellFormed pipe)
    (hb : pipe.para.dynprompt = some buf)
    (hz : pipe.para.hasnoecho = true → 0 ∈ buf)
    (hr : retryLoop env.reads = some r1) (hw : retryLoop env.writes = some r2)
    (hfit : bufsiz < buff.length) :
    ∃ out, xioread_readline pipe env buff bufsiz = some out := by
  obtain ⟨_, buf0, hb0, hlen, h0, hle⟩ := hwf
  rw [hb] at hb0
  cases hb0
  obtain ⟨buf1, hs⟩ := store_some buf pipe.para.dynend h0 (by omega)
  have hcond : ∃ c, noechoCond pipe = some c := by
    unfold noechoCond
    rw [hb]
    by_cases hn : pipe.para.hasnoecho = true
    · simp only [hn, if_true]
      unfold cstring
      rw [if_pos (hz hn)]
      exact ⟨_, rfl⟩
    · simp only [hn]
      exact ⟨false, rfl⟩
  obtain ⟨c, hc⟩ := hcond
  cases c with
  | true =>
    cases r1 with
    | eintr => exact absurd hr (retryLoop_ne_eintr _)
    | fail errno => exact ⟨_, read_noecho_fail pipe env buf buf1 buff bufsiz errno hb hc hs hr⟩
    | ok data =>
      exact ⟨_, read_noecho_ok pipe env buf buf1 buff data bufsiz hb hc hs hr (by
        rw [List.length_take]
        omega)⟩
  | false =>
    obtain ⟨log, hlog⟩ := writeCR_some pipe env r2 hw
    obtain ⟨e, _, _, hb1⟩ := store_spec hs
    have hcs : cstring buf1 = some ((buf.take e).takeWhile (fun b => b ≠ 0)) := by
      rw [hb1]
      exact cstring_append_zero _ _
    obtain ⟨out, ho, _⟩ := xioread_finish_some
      { pipe with para := { pipe.para with dynprompt := some buf1, dynend := 0 } }
      (xiotermios_setflag env.tty LFlag.ECHO)
      (some ((buf.take e).takeWhile (fun b => b ≠ 0))) log env.line buff bufsiz hfit
    exact ⟨out, by rw [read_line_dyn pipe env buf buf1 _ log buff bufsiz hb hc hlog hs hcs]; exact ho⟩

theorem read_resets_dynend {pipe : Single} {env : ReadEnv} {buff : List Nat}
    {bufsiz : Nat} {out : ReadOut} (hwf : WellFormed pipe)
    (h : xioread_readline pipe env buff bufsiz = some out) (hret : 0 ≤ out.ret) :
    ∃ buf buf1, pipe.para.dynprompt = some buf ∧
      store buf pipe.para.dynend 0 = some buf1 ∧
      out.pipe = { pipe with
        para := { pipe.para with dynprompt := some buf1, dynend := 0 } } ∧
      WellFormed out.pipe := by
  obtain ⟨hd, buf, hb, hlen, h0, hle⟩ := hwf
  obtain ⟨buf1, hs, hcase⟩ := xioread_readline_inv hb h
  have hp : out.pipe = { pipe with
      para := { pipe.para with dynprompt := some buf1, dynend := 0 } } := by
    rcases hcase with ⟨_, hneg | ⟨_, hp⟩⟩ | ⟨_, _, hp, _⟩
    · rw [hneg] at hret
      exact absurd hret (by decide)
    · exact hp
    · exact hp
  refine ⟨buf, buf1, hb, hs, hp, ?_⟩
  obtain ⟨e, _, he, hb1⟩ := store_spec hs
  rw [hp]
  refine ⟨hd, buf1, rfl, ?_, le_refl _, Int.ofNat_nonneg _⟩
  rw [hb1]
  simp only [List.length_append, List.length_cons, List.length_take, List.length_drop]
  show _ = pipe.para.dynbytes + 1
  omega

theorem line_read_shows_retained {pipe : Single} {env : ReadEnv} {buff : List Nat}
    {bufsiz : Nat} {out : ReadOut} (hwf : WellFormed pipe)
    (h : xioread_readline pipe env buff bufsiz = some out)
    (hpath : out.noechoPath = false) :
    out.readlineArg = some (some ((retained pipe).takeWhile (fun b => b ≠ 0))) := by
  obtain ⟨hd, buf, hb, hlen, h0, hle⟩ := hwf
  obtain ⟨buf1, hs, hcase⟩ := xioread_readline_inv hb h
  rcases hcase with ⟨ht, _⟩ | ⟨_, _, _, s, hcs, harg⟩
  · rw [ht] at hpath
    cases hpath
  · obtain ⟨e, he, _, hb1⟩ := store_spec hs
    rw [hb1, cstring_append_zero] at hcs
    cases hcs
    rw [harg]
    simp only [retained, hb, he, Int.toNat_ofNat]

/-- C11: for every endpoint with a consistent dynamic prompt buffer, whenever
`xioread_readline` returns a result that is not negative (on the echo-suppression
path or on the line-editing path, data or end of stream), the endpoint is the one
before the call except that `dynend = dynprompt` and a NUL is stored at the old
`dynend`: the tracked prompt is empty, the static prompt and the other parameters
are as before.  The writes observed afterwards then make up the tracked prompt, and
a following line-editing read hands `Readline` exactly that prompt (up to its first
NUL).  Such a read has a result whenever the system calls come back, the buffer
holds a NUL for `regexec` to stop at, and the caller's buffer has room. -/
theorem read_consumes_dynprompt (pipe : Single) (env : ReadEnv) (buff : List Nat)
    (bufsiz : Nat) (hwf : WellFormed pipe) :
    (∀ out, xioread_readline pipe env buff bufsiz = some out → 0 ≤ out.ret →
      out.pipe.para.dynend = 0 ∧ retained out.pipe = [] ∧
      out.pipe.para.prompt = pipe.para.prompt ∧
      (∃ buf buf1, pipe.para.dynprompt = some buf ∧
        store buf pipe.para.dynend 0 = some buf1 ∧
        out.pipe = { pipe with
          para := { pipe.para with dynprompt := some buf1, dynend := 0 } }) ∧
      ∀ ws : List (List Nat),
        (∀ w ∈ ws, (pipe.para.dynbytes : Int) + w.length < SIZE_MOD ∧
          (CR ∈ w → (afterLastBreak w).length ≤ pipe.para.dynbytes)) →
        ∃ pipe2, scanAll out.pipe ws = some pipe2 ∧
          retained pipe2 = specPrompt pipe.para.dynbytes ws ∧
          ∀ env2 buff2 bufsiz2 out2,
            xioread_readline pipe2 env2 buff2 bufsiz2 = some out2 →
            out2.noechoPath = false →
            out2.readlineArg =
              some (some ((specPrompt pipe.para.dynbytes ws).takeWhile
                (fun b => b ≠ 0)))) ∧
    (∀ buf r1 r2, pipe.para.dynprompt = some buf →
      (pipe.para.hasnoecho = true → 0 ∈ buf) →
      retryLoop env.reads = some r1 → retryLoop env.writes = some r2 →
      bufsiz < buff.length →
      ∃ out, xioread_readline pipe env buff bufsiz = some out) := by
  constructor
  · intro out h hret
    obtain ⟨buf, buf1, hb, hs, hp, hwf1⟩ := read_resets_dynend hwf h hret
    have hdyn : out.pipe.para.dynbytes = pipe.para.dynbytes := by rw [hp]
    have hretd : retained out.pipe = [] := by
      rw [hp]
      simp [retained]
    refine ⟨by rw [hp], hretd, by rw [hp], ⟨buf, buf1, hb, hs, hp⟩, ?_⟩
    intro ws hsafe
    obtain ⟨p2, g1, g2, g3, g4⟩ := scanAll_safe ws out.pipe [] hwf1
      (by rw [hretd]; simp [lastN, afterLastBreak]) (by rw [hdyn]; exact hsafe)
    have hspec : retained p2 = specPrompt pipe.para.dynbytes ws := by
      rw [g4, hdyn]
      rfl
    refine ⟨p2, g1, hspec, ?_⟩
    intro env2 buff2 bufsiz2 out2 h2 hpath
    rw [line_read_shows_retained g2 h2 hpath, hspec]
  · intro buf r1 r2 hb hz hr hw hfit
    exact xioread_readline_defined pipe env buff bufsiz buf r1 r2 hwf hb hz hr hw hfit

theorem wellFormed_trackedPipe (b : Bool) : WellFormed (trackedPipe b) := by
  refine ⟨rfl, 62 :: 32 :: 0 :: List.replicate 510 0, rfl, ?_, ?_, ?_⟩
  · rw [List.length_cons, List.length_cons, List.length_cons, List.length_replicate]
    rfl
  · show (0 : Int) ≤ 2
    decide
  · show (2 : Int) ≤ ((512 : Nat) : Int)
    decide

theorem store_trackedPipe (r : List Nat) :
    store (62 :: 32 :: 0 :: r) 2 0 = some (62 :: 32 :: 0 :: r) := by
  unfold store
  rw [if_pos]
  · rfl
  · constructor
    · decide
    · rw [List.length_cons, List.length_cons, List.length_cons]
      omega

theorem cstring_trackedPipe (r : List Nat) :
    cstring (62 :: 32 :: 0 :: r) = some [62, 32] :=
  cstring_append_zero [62, 32] r

theorem noechoCond_trackedPipe (b : Bool) : noechoCond (trackedPipe b) = some b := by
  unfold noechoCond
  cases b with
  | false => rfl
  | true =>
    simp only [trackedPipe, cstring_trackedPipe, if_true]
    rfl

theorem read_line_trackedPipe (line : Option (List Nat)) :
    ∃ out, xioread_readline (trackedPipe false)
        ⟨rawTty, [], [SysResult.ok [CR]], line⟩ [0, 0, 0, 0] 3 = some out ∧
      out.noechoPath = false ∧ out.ret = lineResult line 3 ∧
      out.readlineArg = some (some [62, 32]) := by
  obtain ⟨out, ho, harg, _, hpath, hret⟩ := xioread_finish_some
    { trackedPipe false with
      para := { (trackedPipe false).para with
        dynprompt := some (62 :: 32 :: 0 :: List.replicate 510 0), dynend := 0 } }
    (xiotermios_setflag rawTty LFlag.ECHO) (some [62, 32]) [] line [0, 0, 0, 0] 3
    (by decide)
  refine ⟨out, ?_, hpath, hret, harg⟩
  rw [read_line_dyn (trackedPipe false) ⟨rawTty, [], [SysResult.ok [CR]], line⟩
    (62 :: 32 :: 0 :: List.replicate 510 0) (62 :: 32 :: 0 :: List.replicate 510 0)
    [62, 32] [] [0, 0, 0, 0] 3 rfl (noechoCond_trackedPipe false) rfl
    (store_trackedPipe _) (cstring_trackedPipe _)]
  exact ho

theorem read_noecho_trackedPipe :
    ∃ out, xioread_readline (trackedPipe true)
        ⟨rawTty, [SysResult.eintr, SysResult.ok [115]], [], none⟩ [0, 0, 0, 0] 3 =
          some out ∧
      out.noechoPath = true ∧ out.ret = 1 :=
  ⟨_, read_noecho_ok (trackedPipe true)
      ⟨rawTty, [SysResult.eintr, SysResult.ok [115]], [], none⟩
      (62 :: 32 :: 0 :: List.replicate 510 0) (62 :: 32 :: 0 :: List.replicate 510 0)
      [0, 0, 0, 0] [115] 3 rfl (noechoCond_trackedPipe true) (store_trackedPipe _) rfl
      (by decide), rfl, rfl⟩

/-- Witness for C11: an endpoint whose tracked prompt is `> ` (`dynend - dynprompt`
is 2).  A line-editing read that returns the line `hi` (result 3), a line-editing
read that meets the end of the stream (result 0), and an echo-suppressed read of one
byte after an interrupt (result 1) each return a result that is not negative and
leave `dynend = dynprompt`: the tracked prompt is consumed. -/
theorem read_consumes_dynprompt_witness :
    WellFormed (trackedPipe false) ∧ WellFormed (trackedPipe true) ∧
    retained (trackedPipe false) = [62, 32] ∧ retained (trackedPipe true) = [62, 32] ∧
    (trackedPipe false).para.dynend = 2 ∧
    (∃ out, xioread_readline (trackedPipe false)
        ⟨rawTty, [], [SysResult.ok [CR]], some [104, 105]⟩ [0, 0, 0, 0] 3 = some out ∧
      out.noechoPath = false ∧ out.ret = 3 ∧ 0 ≤ out.ret ∧
      out.pipe.para.dynend = 0 ∧ retained out.pipe = [] ∧
      out.pipe.para.prompt = (trackedPipe false).para.prompt) ∧
    (∃ out, xioread_readline (trackedPipe false)
        ⟨rawTty, [], [SysResult.ok [CR]], none⟩ [0, 0, 0, 0] 3 = some out ∧
      out.noechoPath = false ∧ out.ret = 0 ∧ 0 ≤ out.ret ∧
      out.pipe.para.dynend = 0 ∧ retained out.pipe = [] ∧
      out.pipe.para.prompt = (trackedPipe false).para.prompt) ∧
    (∃ out, xioread_readline (trackedPipe true)
        ⟨rawTty, [SysResult.eintr, SysResult.ok [115]], [], none⟩ [0, 0, 0, 0] 3 =
          some out ∧
      out.noechoPath = true ∧ out.ret = 1 ∧ 0 ≤ out.ret ∧
      out.pipe.para.dynend = 0 ∧ retained out.pipe = [] ∧
      out.pipe.para.prompt = (trackedPipe true).para.prompt) := by
  refine ⟨wellFormed_trackedPipe false, wellFormed_trackedPipe true, rfl, rfl, rfl,
    ?_, ?_, ?_⟩
  · obtain ⟨out, h, hpath, hret, _⟩ := read_line_trackedPipe (some [104, 105])
    have hret3 : out.ret = 3 := by rw [hret]; rfl
    have hnn : 0 ≤ out.ret := by rw [hret3]; decide
    obtain ⟨g1, g2, g3, _⟩ := (read_consumes_dynprompt (trackedPipe false)
      ⟨rawTty, [], [SysResult.ok [CR]], some [104, 105]⟩ [0, 0, 0, 0] 3
      (wellFormed_trackedPipe false)).1 out h hnn
    exact ⟨out, h, hpath, hret3, hnn, g1, g2, g3⟩
  · obtain ⟨out, h, hpath, hret, _⟩ := read_line_trackedPipe none
    have hret0 : out.ret = 0 := by rw [hret]; rfl
    have hnn : 0 ≤ out.ret := by rw [hret0]
    obtain ⟨g1, g2, g3, _⟩ := (read_consumes_dynprompt (trackedPipe false)
      ⟨rawTty, [], [SysResult.ok [CR]], none⟩ [0, 0, 0, 0] 3
      (wellFormed_trackedPipe false)).1 out h hnn
    exact ⟨out, h, hpath, hret0, hnn, g1, g2, g3⟩
  · obtain ⟨out, h, hpath, hret⟩ := read_noecho_trackedPipe
    have hnn : 0 ≤ out.ret := by rw [hret]; decide
    obtain ⟨g1, g2, g3, _⟩ := (read_consumes_dynprompt (trackedPipe true)
      ⟨rawTty, [SysResult.eintr, SysResult.ok [115]], [], none⟩ [0, 0, 0, 0] 3
      (wellFormed_trackedPipe true)).1 out h hnn
    exact ⟨out, h, hpath, hret, hnn, g1, g2, g3⟩

/-- On the error path of the echo-suppression read (return value -1) `dynend` is
not reset: the tracked prompt stays. -/
theorem read_error_keeps_dynend (pipe : Single) (env : ReadEnv) (buf buf1 buff : List Nat)
    (bufsiz errno : Nat) (hb : pipe.para.dynprompt = some buf)
    (hc : noechoCond pipe = some true) (hs : store buf pipe.para.dynend 0 = some buf1)
    (hr : retryLoop env.reads = some (SysResult.fail errno)) :
    ∃ out, xioread_readline pipe env buff bufsiz = some out ∧ out.ret = -1 ∧
      out.pipe.para.dynend = pipe.para.dynend :=
  ⟨_, read_noecho_fail pipe env buf buf1 buff bufsiz errno hb hc hs hr, rfl, rfl⟩

theorem list_eq_range_map (l : List Nat) :
    l = (List.range l.length).map (fun i => l.getD i 0) := by
  apply List.ext_getElem
  · simp
  · intro i h1 h2
    simp [List.getD_eq_getElem?_getD, List.getElem?_eq_getElem h1]

theorem getD_drop_nat (l : List Nat) (d i : Nat) : (l.drop d).getD i 0 = l.getD (d + i) 0 := by
  simp [List.getD_eq_getElem?_getD, List.getElem?_drop]

theorem getD_take_of_lt (l : List Nat) (n i : Nat) (h : i < n) :
    (l.take n).getD i 0 = l.getD i 0 := by
  simp [List.getD_eq_getElem?_getD, List.getElem?_take_of_lt h]

theorem bufferOf_length (mem : Int → Nat) (n : Nat) : (bufferOf mem n).length = n := by
  simp [bufferOf]

theorem bufferOf_take (mem : Int → Nat) (n e : Nat) (h : e ≤ n) :
    (bufferOf mem n).take e = (List.range e).map (fun (i : Nat) => mem (i : Int)) := by
  unfold bufferOf
  rw [← List.map_take, List.take_range, Nat.min_eq_left h]

theorem memAround_inside (buf : List Nat) (outside : Int → Nat) (j : Nat)
    (hj : j < buf.length) (hM : (buf.length : Int) < SIZE_MOD) :
    memAround buf outside (j : Int) = buf.getD j 0 := by
  unfold memAround
  have h1 : (j : Int) % SIZE_MOD = (j : Int) := by
    unfold SIZE_MOD at *
    omega
  rw [h1, if_pos (by omega)]
  simp

theorem memcpy_flat_hit (mem : Int → Nat) (dst : Int) (from_ : List Nat) (p : Nat)
    (n a : Int) (k : Nat) (h : (a - dst) % SIZE_MOD = (k : Int)) (hk : (k : Int) < n) :
    memcpy_flat mem dst from_ (p : Int) n a = from_.getD (p + k) 0 := by
  unfold memcpy_flat
  rw [h, if_pos hk]
  congr 1

theorem memcpy_flat_miss (mem : Int → Nat) (dst : Int) (from_ : List Nat) (src n : Int)
    (j : Nat) (hj : (j : Int) < SIZE_MOD) (h : ¬ ((j : Int) - dst) % SIZE_MOD < n) :
    memcpy_flat mem dst from_ src n (j : Int) = mem (j : Int) := by
  unfold memcpy_flat
  rw [if_neg h]
  congr 1
  unfold SIZE_MOD at *
  omega

theorem memmove_flat_hit (mem : Int → Nat) (dst src n a : Int) (k s : Nat)
    (h : (a - dst) % SIZE_MOD = (k : Int)) (hk : (k : Int) < n)
    (hs : (src + (k : Int)) % SIZE_MOD = (s : Int)) :
    memmove_flat mem dst src n a = mem (s : Int) := by
  unfold memmove_flat
  rw [h, if_pos hk, hs]

theorem flat_core (pipe : Single) (outside : Int → Nat) (buf buff : List Nat) (e2 p : Nat)
    (hd : pipe.dtype = DataType.XIODATA_READLINE)
    (hbuf : pipe.para.dynprompt = some buf)
    (hlen : buf.length = pipe.para.dynbytes + 1)
    (hst : scanStart pipe buff = ((e2 : Int), (p : Int)))
    (he2 : e2 ≤ pipe.para.dynbytes) (hp : p ≤ buff.length)
    (hsz : (pipe.para.dynbytes : Int) + buff.length < SIZE_MOD)
    (hbig : (pipe.para.dynbytes : Int) + 1 < SIZE_MOD) :
    retained (xioscan_readline_flat pipe outside buff).1 =
      lastN pipe.para.dynbytes (buf.take e2 ++ buff.drop p) ∧
    (xioscan_readline_flat pipe outside buff).1.para.dynbytes = pipe.para.dynbytes ∧
    WellFormed (xioscan_readline_flat pipe outside buff).1 := by
  obtain ⟨L, hL⟩ : ∃ L : Nat, L = buff.length - p := ⟨_, rfl⟩
  obtain ⟨D, hD⟩ : ∃ D : Nat, D = pipe.para.dynbytes := ⟨_, rfl⟩
  rw [← hD] at hlen he2 hsz hbig ⊢
  have hM : (buf.length : Int) < SIZE_MOD := by
    unfold SIZE_MOD at *
    omega
  have hdl : (buff.drop p).length = L := by rw [List.length_drop]; omega
  have hwl : (buf.take e2).length = e2 := by rw [List.length_take]; omega
  have hlenv : scanLen pipe buff = (L : Int) := by
    unfold scanLen
    rw [hst]
    unfold SIZE_MOD at *
    show (0 - (p : Int) + (buff.length : Int)) % 18446744073709551616 = (L : Int)
    omega
  by_cases htr : D < e2 + L
  · -- the trimming branch
    have htrims : scanTrims pipe buff = true := by
      unfold scanTrims
      rw [hst, hlenv, ← hD]
      simp only [decide_eq_true_eq]
      unfold SIZE_MOD at *
      omega
    have hres : xioscan_readline_flat pipe outside buff =
        ({ pipe with
            para := { pipe.para with
              dynprompt := some (bufferOf
                (memcpy_flat
                  (memmove_flat (memAround buf outside) 0
                    ((e2 : Int) - scanMoveCount pipe buff) (scanMoveCount pipe buff))
                  ((D : Int) - (L : Int)) buff (p : Int) (L : Int)) buf.length),
              dynend := (D : Int) - (L : Int) + (L : Int) } },
          memcpy_flat
            (memmove_flat (memAround buf outside) 0
              ((e2 : Int) - scanMoveCount pipe buff) (scanMoveCount pipe buff))
            ((D : Int) - (L : Int)) buff (p : Int) (L : Int)) := by
      unfold xioscan_readline_flat
      simp only [hbuf, hd, ne_eq, not_true_eq_false, if_false, htrims, if_true, hst, hlenv,
        ← hD]
    rw [hres]
    refine ⟨?_, hD.symm, ?_⟩
    · have htn : ((D : Int) - (L : Int) + (L : Int)).toNat = D := by omega
      simp only [retained, htn]
      rw [bufferOf_take _ _ _ (by omega)]
      have hRl : (lastN D (buf.take e2 ++ buff.drop p)).length = D := by
        rw [lastN_length, List.length_append, hwl, hdl]
        omega
      rw [list_eq_range_map (lastN D (buf.take e2 ++ buff.drop p)), hRl]
      apply List.map_congr_left
      intro i hi
      have hi' : i < D := List.mem_range.mp hi
      unfold lastN
      rw [getD_drop_nat, List.length_append, hwl, hdl]
      by_cases hge : D ≤ i + L
      · rw [memcpy_flat_hit _ _ _ _ _ _ (i + L - D)
          (by unfold SIZE_MOD at *; omega) (by omega),
          List.getD_append_right _ _ _ _ (by rw [hwl]; omega), hwl, getD_drop_nat]
        congr 1
        omega
      · have hcnt : scanMoveCount pipe buff = ((D - L : Nat) : Int) := by
          unfold scanMoveCount
          rw [hlenv, ← hD]
          unfold SIZE_MOD at *
          omega
        rw [memcpy_flat_miss _ _ _ _ _ i (by unfold SIZE_MOD at *; omega)
          (by unfold SIZE_MOD at *; omega),
          memmove_flat_hit _ _ _ _ _ i (e2 + L - D + i)
            (by unfold SIZE_MOD at *; omega) (by rw [hcnt]; omega)
            (by rw [hcnt]; unfold SIZE_MOD at *; omega),
          memAround_inside _ _ _ (by omega) hM,
          List.getD_append _ _ _ _ (by rw [hwl]; omega),
          getD_take_of_lt _ _ _ (by omega)]
    · refine ⟨hd, _, rfl, ?_, ?_, ?_⟩
      · rw [bufferOf_length, hlen, ← hD]
      · show (0 : Int) ≤ (D : Int) - (L : Int) + (L : Int)
        omega
      · show (D : Int) - (L : Int) + (L : Int) ≤ ((pipe.para.dynbytes : Nat) : Int)
        omega
  · -- plain append
    have htrims : scanTrims pipe buff = false := by
      unfold scanTrims
      rw [hst, hlenv, ← hD]
      simp only [decide_eq_false_iff_not]
      unfold SIZE_MOD at *
      omega
    have hres : xioscan_readline_flat pipe outside buff =
        ({ pipe with
            para := { pipe.para with
              dynprompt := some (bufferOf
                (memcpy_flat (memAround buf outside) (e2 : Int) buff (p : Int) (L : Int))
                buf.length),
              dynend := (e2 : Int) + (L : Int) } },
          memcpy_flat (memAround buf outside) (e2 : Int) buff (p : Int) (L : Int)) := by
      unfold xioscan_readline_flat
      simp only [hbuf, hd, ne_eq, not_true_eq_false, if_false, htrims, hst, hlenv]
      rfl
    rw [hres]
    refine ⟨?_, hD.symm, ?_⟩
    · have htn : ((e2 : Int) + (L : Int)).toNat = e2 + L := by omega
      simp only [retained, htn]
      rw [bufferOf_take _ _ _ (by omega),
        lastN_of_length_le _ _ (by rw [List.length_append, hwl, hdl]; omega)]
      have hRl : (buf.take e2 ++ buff.drop p).length = e2 + L := by
        rw [List.length_append, hwl, hdl]
      rw [list_eq_range_map (buf.take e2 ++ buff.drop p), hRl]
      apply List.map_congr_left
      intro i hi
      have hi' : i < e2 + L := List.mem_range.mp hi
      by_cases hge : e2 ≤ i
      · rw [memcpy_flat_hit _ _ _ _ _ _ (i - e2)
          (by unfold SIZE_MOD at *; omega) (by omega),
          List.getD_append_right _ _ _ _ (by rw [hwl]; omega), hwl, getD_drop_nat]
      · rw [memcpy_flat_miss _ _ _ _ _ i (by unfold SIZE_MOD at *; omega)
          (by unfold SIZE_MOD at *; omega),
          memAround_inside _ _ _ (by omega) hM,
          List.getD_append _ _ _ _ (by rw [hwl]; omega),
          getD_take_of_lt _ _ _ (by omega)]
    · refine ⟨hd, _, rfl, ?_, ?_, ?_⟩
      · rw [bufferOf_length, hlen, ← hD]
      · show (0 : Int) ≤ (e2 : Int) + (L : Int)
        omega
      · show (e2 : Int) + (L : Int) ≤ ((pipe.para.dynbytes : Nat) : Int)
        omega

theorem flat_reset (pipe : Single) (outside : Int → Nat) (w : List Nat) (k b : Nat)
    (hwf : WellFormed pipe)
    (hsz : (pipe.para.dynbytes : Int) + w.length < SIZE_MOD)
    (hbig : (pipe.para.dynbytes : Int) + 1 < SIZE_MOD)
    (hst : scanStart pipe w = (0, (k : Int) + 1)) (hk : w[k]? = some b)
    (hb : b = CR ∨ b = LF) (hcr : CR ∉ w.drop (k + 1)) (hlf : LF ∉ w.drop (k + 1)) :
    retained (xioscan_readline_flat pipe outside w).1 =
      lastN pipe.para.dynbytes (afterLastBreak w) ∧
    (xioscan_readline_flat pipe outside w).1.para.dynbytes = pipe.para.dynbytes ∧
    WellFormed (xioscan_readline_flat pipe outside w).1 := by
  obtain ⟨hd, buf, hbuf, hlen, _, _⟩ := hwf
  have hklt : k < w.length := by
    by_contra hc
    rw [List.getElem?_eq_none (by omega)] at hk
    cases hk
  have hst' : scanStart pipe w = (((0 : Nat) : Int), ((k + 1 : Nat) : Int)) := by
    rw [hst]; push_cast; rfl
  obtain ⟨h2, h3, h4⟩ := flat_core pipe outside buf w 0 (k + 1) hd hbuf hlen hst'
    (by omega) (by omega) hsz hbig
  refine ⟨?_, h3, h4⟩
  rw [h2, afterLastBreak_drop w k b hk hb hcr hlf]
  rfl

theorem flat_step (pipe : Single) (outside : Int → Nat) (w : List Nat)
    (hwf : WellFormed pipe)
    (hsz : (pipe.para.dynbytes : Int) + w.length < SIZE_MOD)
    (hbig : (pipe.para.dynbytes : Int) + 1 < SIZE_MOD) :
    retained (xioscan_readline_flat pipe outside w).1 =
      lastN pipe.para.dynbytes
        (if CR ∈ w ∨ LF ∈ w then afterLastBreak w else retained pipe ++ w) ∧
    (xioscan_readline_flat pipe outside w).1.para.dynbytes = pipe.para.dynbytes ∧
    WellFormed (xioscan_readline_flat pipe outside w).1 := by
  have hwf0 := hwf
  obtain ⟨hd, buf, hbuf, hlen, h0, hle⟩ := hwf
  obtain ⟨e, he⟩ : ∃ e : Nat, pipe.para.dynend = (e : Int) :=
    ⟨_, (Int.toNat_of_nonneg h0).symm⟩
  have hret : retained pipe = buf.take e := by
    simp only [retained, hbuf, he, Int.toNat_ofNat]
  -- the case in which neither reset fires: `ptr` is the clamp of lines 218-219
  have hkeep : ∀ (hst : scanStart pipe w =
        (pipe.para.dynend, if (w.length : Int) > (pipe.para.dynbytes : Int)
          then (w.length : Int) - (pipe.para.dynbytes : Int) else 0)),
      retained (xioscan_readline_flat pipe outside w).1 =
        lastN pipe.para.dynbytes (retained pipe ++ w) ∧
      (xioscan_readline_flat pipe outside w).1.para.dynbytes = pipe.para.dynbytes ∧
      WellFormed (xioscan_readline_flat pipe outside w).1 := by
    intro hst
    by_cases hbg : pipe.para.dynbytes < w.length
    · have hst' : scanStart pipe w =
          ((e : Int), ((w.length - pipe.para.dynbytes : Nat) : Int)) := by
        rw [hst, he, if_pos (by omega)]
        congr 1
        omega
      obtain ⟨h2, h3, h4⟩ := flat_core pipe outside buf w e _ hd hbuf hlen hst'
        (by omega) (by omega) hsz hbig
      refine ⟨?_, h3, h4⟩
      rw [h2, hret, lastN_append_of_le _ _ _ (by rw [List.length_drop]; omega),
        lastN_append_of_le _ _ _ (by omega), lastN_drop_of_le _ _ _ (by omega)]
    · have hst' : scanStart pipe w = ((e : Int), ((0 : Nat) : Int)) := by
        rw [hst, he, if_neg (by omega)]
        rfl
      obtain ⟨h2, h3, h4⟩ := flat_core pipe outside buf w e 0 hd hbuf hlen hst'
        (by omega) (by omega) hsz hbig
      refine ⟨?_, h3, h4⟩
      rw [h2, hret]
      rfl
  cases hcr : memrchr w CR with
  | none =>
    have hncr : CR ∉ w := not_mem_of_memrchr_eq_none hcr
    cases hlf : memrchr w LF with
    | none =>
      have hnlf : LF ∉ w := not_mem_of_memrchr_eq_none hlf
      rw [if_neg (by simp [hncr, hnlf])]
      exact hkeep (scanStart_of_no_break pipe w hncr hnlf)
    | some j =>
      obtain ⟨hj1, hj2, hj3⟩ := memrchr_some_spec hlf
      have hmem : LF ∈ w := List.getElem?_mem hj2
      rw [if_pos (Or.inr hmem)]
      by_cases hge : (j : Int) ≥
          (if (w.length : Int) > (pipe.para.dynbytes : Int)
            then (w.length : Int) - (pipe.para.dynbytes : Int) else 0)
      · have hst : scanStart pipe w = (0, (j : Int) + 1) := by
          unfold scanStart
          simp only [hcr, hlf]
          rw [if_pos hge]
        exact flat_reset pipe outside w j LF hwf0 hsz hbig hst hj2 (Or.inr rfl)
          (fun h => hncr (List.mem_of_mem_drop h)) hj3
      · have hst : scanStart pipe w =
            (pipe.para.dynend, if (w.length : Int) > (pipe.para.dynbytes : Int)
              then (w.length : Int) - (pipe.para.dynbytes : Int) else 0) := by
          unfold scanStart
          simp only [hcr, hlf]
          rw [if_neg hge]
        have hbg : pipe.para.dynbytes < w.length := by
          by_contra hc
          rw [if_neg (by omega)] at hge
          omega
        rw [if_pos (by omega)] at hge
        obtain ⟨h2, h3, h4⟩ := hkeep hst
        refine ⟨?_, h3, h4⟩
        rw [h2, lastN_append_of_le _ _ _ (by omega),
          afterLastBreak_drop w j LF hj2 (Or.inr rfl)
            (fun h => hncr (List.mem_of_mem_drop h)) hj3,
          lastN_drop_of_le _ _ _ (by omega)]
  | some i =>
    obtain ⟨hi1, hi2, hi3⟩ := memrchr_some_spec hcr
    have hmem : CR ∈ w := List.getElem?_mem hi2
    rw [if_pos (Or.inl hmem)]
    cases hlf : memrchr w LF with
    | none =>
      have hnlf : LF ∉ w := not_mem_of_memrchr_eq_none hlf
      have hst : scanStart pipe w = (0, (i : Int) + 1) := by
        unfold scanStart
        simp only [hcr, hlf]
      exact flat_reset pipe outside w i CR hwf0 hsz hbig hst hi2 (Or.inl rfl) hi3
        (fun h => hnlf (List.mem_of_mem_drop h))
    | some j =>
      obtain ⟨hj1, hj2, hj3⟩ := memrchr_some_spec hlf
      by_cases hge : (j : Int) ≥ (i : Int) + 1
      · have hst : scanStart pipe w = (0, (j : Int) + 1) := by
          unfold scanStart
          simp only [hcr, hlf]
          rw [if_pos hge]
        exact flat_reset pipe outside w j LF hwf0 hsz hbig hst hj2 (Or.inr rfl)
          (not_mem_drop_of_le hi3 (by omega)) hj3
      · have hst : scanStart pipe w = (0, (i : Int) + 1) := by
          unfold scanStart
          simp only [hcr, hlf]
          rw [if_neg hge]
        exact flat_reset pipe outside w i CR hwf0 hsz hbig hst hi2 (Or.inl rfl) hi3
          (not_mem_drop_of_le hj3 (by omega))

theorem retained_length (pipe : Single) (hwf : WellFormed pipe) :
    ((retained pipe).length : Int) = pipe.para.dynend := by
  obtain ⟨_, buf, hbuf, hlen, h0, hle⟩ := hwf
  simp only [retained, hbuf, List.length_take]
  omega

/-- Where a write stays inside the buffer (each write that holds a carriage return
has at most `dynbytes` bytes after its last carriage return or line feed), the
bounds-checked `xioscan_readline` and `xioscan_readline_flat` leave the same tracked
prompt and the same `dynend`. -/
theorem flat_agrees_with_checked (pipe : Single) (outside : Int → Nat) (w : List Nat)
    (hwf : WellFormed pipe)
    (hsz : (pipe.para.dynbytes : Int) + w.length < SIZE_MOD)
    (hbig : (pipe.para.dynbytes : Int) + 1 < SIZE_MOD)
    (hguard : CR ∈ w → (afterLastBreak w).length ≤ pipe.para.dynbytes) :
    ∃ pipe1, xioscan_readline pipe w = some pipe1 ∧
      retained pipe1 = retained (xioscan_readline_flat pipe outside w).1 ∧
      pipe1.para.dynend = (xioscan_readline_flat pipe outside w).1.para.dynend ∧
      pipe1.para.dynbytes = (xioscan_readline_flat pipe outside w).1.para.dynbytes := by
  obtain ⟨pipe1, h1, h2, h3, h4⟩ := scan_step pipe w hwf hsz hguard
  obtain ⟨g2, g3, g4⟩ := flat_step pipe outside w hwf hsz hbig
  refine ⟨pipe1, h1, by rw [h2, g2], ?_, by rw [h3, g3]⟩
  rw [← retained_length pipe1 h4, ← retained_length _ g4, h2, g2]

end Socat
